import Mathlib

/-!
Shallow embedding of the markdown-token → paginated-PDF renderer of
`src/utils/export.ts` (class `PdfRenderer` and the helper functions
`sanitizeForPdf` / `stripInlineHtml` / the `UNICODE_TO_ASCII` table).

Modelling conventions:
* Strings are `List Char` (`Str`); a JS regex character-class global replace
  is a per-character substitution; literal-string global replaces are
  left-to-right, non-overlapping, replacements not rescanned — matching the
  semantics of `String.prototype.replace` with a `g` flag.
* Coordinates (mm) and font sizes (pt) are exact rationals `ℚ`.
* jsPDF is the external page-canvas primitive.  Its text-measurement routine
  `splitTextToSize` (which depends on the current font family/style/size) is
  an opaque parameter `WrapFn`; its drawing calls (`text`, `rect`,
  `roundedRect`, `line`) are recorded as `Op` values tagged with the page
  index they are emitted on; `addPage` increments the page counter and
  `this.y = MARGIN` resets the cursor, exactly as in the source.  Colour /
  line-width setters (`setTextColor`, `setDrawColor`, `setFillColor`,
  `setLineWidth`) configure appearance only and are not observed by any
  property below, so they are not recorded; font setters are threaded
  through the state because `splitTextToSize` reads them.
* jsPDF's A4-portrait page size is a configuration value (`Config`); the
  concrete instantiation `cfg0` uses 210 × 297 mm.
-/

namespace MdocExport

abbrev Str := List Char

-- ─── Unicode → ASCII fallback table (`UNICODE_TO_ASCII` in export.ts) ─────

/-- One regex character-class rule `[/[...]/g, "repl"]`: every character in
the class is replaced by the (multi-character) replacement string. -/
def applyRule (r : Str × Str) : Str → Str
  | [] => []
  | c :: cs => (if c ∈ r.1 then r.2 else [c]) ++ applyRule r cs

/-- The ordered replacement table from `export.ts` lines 30–58. -/
def UNICODE_TO_ASCII : List (Str × Str) :=
  [ (['┌', '┐', '└', '┘'], ['+']),
    (['├', '┤', '┬', '┴', '┼'], ['+']),
    (['─', '━'], ['-']),
    (['│', '┃'], ['|']),
    (['╔', '╗', '╚', '╝', '╠', '╣', '╦', '╩', '╬'], ['+']),
    (['═'], ['=']),
    (['║'], ['|']),
    (['▶', '►', '→', '➜', '➤'], ['>']),
    (['◀', '◄', '←'], ['<']),
    (['▼', '▾', '↓'], ['v']),
    (['▲', '▴', '↑'], ['^']),
    (['•', '●', '○', '◦', '◉', '◎'], ['*']),
    (['■', '□', '▪', '▫'], ['#']),
    (['✓', '✔', '☑'], ['[', 'x', ']']),
    (['✗', '✘', '☐'], ['[', ' ', ']']),
    (['…'], ['.', '.', '.']),
    (['–'], ['-', '-']),
    (['—'], ['-', '-', '-']),
    (['≥'], ['>', '=']),
    (['≤'], ['<', '=']),
    (['≠'], ['!', '=']) ]

/-- `sanitizeForPdf` from export.ts lines 61–67: fold the rules over the
input, each rule a global character-class replace. -/
def sanitizeForPdf (s : Str) : Str :=
  UNICODE_TO_ASCII.foldl (fun acc r => applyRule r acc) s

-- ─── `stripInlineHtml` (export.ts lines 121–129) ──────────────────────────

/-- Global literal-substring replace, JS `String.replace(/pat/g, repl)`
semantics: leftmost, non-overlapping, replacement not rescanned.  The
counter argument skips the remainder of a match just consumed (so the
recursion is structural on the subject string). -/
def replaceSubAux (pat repl : Str) : ℕ → Str → Str
  | _, [] => []
  | 0, c :: cs =>
    if pat ≠ [] ∧ pat.isPrefixOf (c :: cs) then
      repl ++ replaceSubAux pat repl (pat.length - 1) cs
    else c :: replaceSubAux pat repl 0 cs
  | k + 1, _ :: cs => replaceSubAux pat repl k cs

def replaceSub (pat repl s : Str) : Str := replaceSubAux pat repl 0 s

/-- Scanner for the JS regex `/<[^>]+>/g` replaced by the empty string:
`acc = some buf` means a candidate tag was opened by `<` and `buf` holds
the characters seen since (reversed).  A `>` with a non-empty buffer
completes the tag (the whole match is dropped); `<>` does not match; an
unterminated `<…` is kept verbatim. -/
def stripTagsAux : Option Str → Str → Str
  | none, [] => []
  | none, c :: cs =>
    if c = '<' then stripTagsAux (some []) cs
    else c :: stripTagsAux none cs
  | some buf, [] => '<' :: buf.reverse
  | some buf, c :: cs =>
    if c = '>' then
      if buf = [] then '<' :: '>' :: stripTagsAux none cs
      else stripTagsAux none cs
    else stripTagsAux (some (c :: buf)) cs

def stripTags (s : Str) : Str := stripTagsAux none s

/-- `stripInlineHtml`: strip `<...>` tags and unescape the five HTML
entities, in the source's order. -/
def stripInlineHtml (s : Str) : Str :=
  replaceSub "&#39;".data [Char.ofNat 39]
    (replaceSub "&quot;".data "\"".data
      (replaceSub "&gt;".data ">".data
        (replaceSub "&lt;".data "<".data
          (replaceSub "&amp;".data "&".data (stripTags s)))))

-- ─── Token model (the marked-lexer token shapes the renderer consumes) ────

/-- Inline token: the renderer only distinguishes "has a `tokens` array"
(`branch`), "has a `text` field" (`leaf`), and "has neither" (`skip`). -/
inductive ITok : Type where
  | leaf (text : Str)
  | branch (tokens : List ITok)
  | skip

/-- Child of a `Blockquote` token, as discriminated by `renderBlockquote`
(export.ts lines 250–261): has `tokens`, or has `text`, or neither. -/
inductive QTok : Type where
  | toks (tokens : List ITok)
  | txt (text : Str)
  | other

mutual
/-- A `ListItem` token: its `tokens` array. -/
inductive Item : Type where
  | mk (tokens : List ItemTok)

/-- A block token inside a list item, as discriminated by `renderList`
(export.ts lines 291–338): a `text` token with/without nested `tokens`, a
`paragraph`, a nested `list`, or anything else (ignored). -/
inductive ItemTok : Type where
  | textTok (tokens : List ITok)
  | textRaw (raw : Str)
  | para (tokens : List ITok)
  | sublist (ordered : Bool) (items : List Item)
  | otherTok
end

/-- Top-level block token, one constructor per `renderToken` dispatch case
(export.ts lines 426–467); a table `Cell` is its `tokens` array. -/
inductive Tok : Type where
  | heading (depth : ℕ) (tokens : List ITok)
  | paragraph (tokens : List ITok)
  | code (text : Str)
  | blockquote (tokens : List QTok)
  | list (ordered : Bool) (items : List Item)
  | table (header : List (List ITok)) (rows : List (List (List ITok)))
  | hr
  | space
  | html (text : Str)
  | other

-- ─── Inline-span flattener (`inlineTokensToText`, export.ts 132–142) ──────

mutual
/-- `inlineTokensToText`: concatenate leaf text (recursing into nested
`tokens`, each recursive call itself HTML-stripped, as in the source) and
strip inline HTML from the concatenation. -/
def inlineTokensToText (ts : List ITok) : Str :=
  stripInlineHtml (collectInline ts)

def collectInline : List ITok → Str
  | [] => []
  | ITok.branch ts :: rest => inlineTokensToText ts ++ collectInline rest
  | ITok.leaf s :: rest => s ++ collectInline rest
  | ITok.skip :: rest => collectInline rest
end

-- ─── Drawing operations, state, configuration ─────────────────────────────

/-- A recorded jsPDF drawing call. -/
inductive Op : Type where
  | text (str : Str) (x y : ℚ)
  | rect (x y w h : ℚ) (mode : Str)
  | roundedRect (x y w h rx ry : ℚ) (mode : Str)
  | line (x1 y1 x2 y2 : ℚ)
deriving DecidableEq, Repr

/-- Page geometry fixed at renderer construction (jsPDF `"a4"` portrait in
the source; kept abstract so properties quantify over configurations). -/
structure Config : Type where
  pageWidth : ℚ
  pageHeight : ℚ
deriving DecidableEq, Repr

/-- Renderer state: vertical cursor `y`, current 0-based page index, the
emitted drawing operations tagged with their page, and the jsPDF current
font (read by `splitTextToSize`). -/
structure RState : Type where
  y : ℚ
  page : ℕ
  ops : List (ℕ × Op)
  fontFamily : Str
  fontStyle : Str
  fontSize : ℚ
deriving DecidableEq, Repr

/-- External jsPDF `splitTextToSize`, parameterised by the current font
family / style / size, the text and the wrap width. -/
abbrev WrapFn := Str → Str → ℚ → Str → ℚ → List Str

-- ─── Constants (export.ts lines 70–91) ────────────────────────────────────

def MARGIN : ℚ := 15
def LINE_HEIGHT : ℚ := 3 / 2
def fontSizeBody : ℚ := 10
def fontSizeCode : ℚ := 9
def fontSizeSmall : ℚ := 8

/-- `FONT_SIZES[`h${depth}`] ?? FONT_SIZES.body`. -/
def headingFontSize (depth : ℕ) : ℚ :=
  if depth = 1 then 18 else if depth = 2 then 15
  else if depth = 3 then 13 else if depth = 4 then 11 else fontSizeBody

def helvetica : Str := "helvetica".data
def courier : Str := "courier".data
def bold : Str := "bold".data
def italic : Str := "italic".data
def normalStyle : Str := "normal".data

/-- `(fontSize * LINE_HEIGHT * 25.4) / 72` — pt → mm line height. -/
def lineHOf (fontSize : ℚ) : ℚ := fontSize * LINE_HEIGHT * (254 / 10) / 72

def contentWidth (cfg : Config) : ℚ := cfg.pageWidth - MARGIN * 2

-- ─── Cursor-paginated canvas primitives ───────────────────────────────────

/-- Record one drawing call on the current page. -/
def emit (op : Op) (s : RState) : RState :=
  { s with ops := s.ops ++ [(s.page, op)] }

/-- `addSpace` / `this.y += …`: move the cursor down without drawing. -/
def addSpace (mm : ℚ) (s : RState) : RState := { s with y := s.y + mm }

/-- `ensureSpace` (export.ts lines 113–118): `pdf.addPage()` and reset the
cursor to the top margin when the needed height would overflow the bottom
margin. -/
def ensureSpace (cfg : Config) (needed : ℚ) (s : RState) : RState :=
  if s.y + needed > cfg.pageHeight - MARGIN then
    { s with page := s.page + 1, y := MARGIN }
  else s

def setFont (family style : Str) (s : RState) : RState :=
  { s with fontFamily := family, fontStyle := style }

def setFontSize (size : ℚ) (s : RState) : RState := { s with fontSize := size }

/-- `wrapText` (export.ts 145–153): set the font, then measure-and-wrap via
jsPDF. -/
def wrapText (cfg : Config) (wrap : WrapFn) (text : Str) (fontSize : ℚ)
    (fontStyle : Str) (s : RState) : RState × List Str :=
  let s := setFont helvetica fontStyle (setFontSize fontSize s)
  (s, wrap s.fontFamily s.fontStyle s.fontSize text (contentWidth cfg))

def writeLinesLoop (cfg : Config) (lineH : ℚ) : List Str → RState → RState
  | [], s => s
  | l :: ls, s =>
    let s1 := ensureSpace cfg lineH s
    let s2 := emit (Op.text l MARGIN s1.y) s1
    writeLinesLoop cfg lineH ls (addSpace lineH s2)

/-- `writeLines` (export.ts 156–172): per line, `ensureSpace(lineH)`, draw at
`(MARGIN, y)`, advance `y` by `lineH`. -/
def writeLines (cfg : Config) (lines : List Str) (fontSize : ℚ)
    (fontStyle : Str) (s : RState) : RState :=
  let s := setFont helvetica fontStyle (setFontSize fontSize s)
  writeLinesLoop cfg (lineHOf fontSize) lines s

-- ─── Block renderers ──────────────────────────────────────────────────────

/-- `renderHeading` (export.ts 181–198). -/
def renderHeading (cfg : Config) (wrap : WrapFn) (depth : ℕ)
    (toks : List ITok) (s : RState) : RState :=
  let text := sanitizeForPdf (inlineTokensToText toks)
  let fontSize := headingFontSize depth
  let p := wrapText cfg wrap text fontSize bold s
  let s := addSpace (if depth ≤ 2 then 6 else 4) p.1
  let s := writeLines cfg p.2 fontSize bold s
  let s :=
    if depth = 1 then
      addSpace 2 (emit (Op.line MARGIN s.y (MARGIN + contentWidth cfg) s.y) s)
    else s
  addSpace 2 s

/-- `renderParagraph` (export.ts 200–205). -/
def renderParagraph (cfg : Config) (wrap : WrapFn) (toks : List ITok)
    (s : RState) : RState :=
  let text := sanitizeForPdf (inlineTokensToText toks)
  let p := wrapText cfg wrap text fontSizeBody normalStyle s
  let s := writeLines cfg p.2 fontSizeBody normalStyle p.1
  addSpace 3 s

/-- JS `"x".split("\n")`. -/
def splitLines : Str → List Str
  | [] => [[]]
  | c :: cs =>
    if c = '\n' then [] :: splitLines cs
    else
      match splitLines cs with
      | [] => [[c]]
      | l :: ls => (c :: l) :: ls

/-- The per-line loop of `renderCode` (export.ts 235–244): `ensureSpace`,
truncate (take the first wrapped piece of `codeLine || " "` at width
`contentWidth - 2*padding`), draw, advance. -/
def codeLoop (cfg : Config) (wrap : WrapFn) (lineH padding : ℚ) :
    List Str → RState → RState
  | [], s => s
  | cl :: rest, s =>
    let s := ensureSpace cfg lineH s
    let truncated := wrap s.fontFamily s.fontStyle s.fontSize
      (if cl = [] then [' '] else cl) (contentWidth cfg - padding * 2)
    let s := emit (Op.text (truncated.headD []) (MARGIN + padding) s.y) s
    codeLoop cfg wrap lineH padding rest (addSpace lineH s)

/-- `renderCode` (export.ts 207–248). -/
def renderCode (cfg : Config) (wrap : WrapFn) (text : Str) (s : RState) :
    RState :=
  let codeLines := splitLines (sanitizeForPdf text)
  let lineH := lineHOf fontSizeCode
  let padding : ℚ := 3
  let blockHeight := (codeLines.length : ℚ) * lineH + padding * 2
  let s := ensureSpace cfg (min blockHeight 60) s
  let bgHeight := min blockHeight (cfg.pageHeight - MARGIN - s.y)
  let s := emit (Op.roundedRect MARGIN s.y (contentWidth cfg) bgHeight 2 2
    "FD".data) s
  let s := addSpace padding s
  let s := setFont courier normalStyle (setFontSize fontSizeCode s)
  let s := codeLoop cfg wrap lineH padding codeLines s
  let s := addSpace padding s
  addSpace 3 s

/-- Flatten one blockquote child (the `.map` body, export.ts 253–259). -/
def qtokText : QTok → Str
  | QTok.toks ts => inlineTokensToText ts
  | QTok.txt t => t
  | QTok.other => []

/-- `renderBlockquote` (export.ts 250–289).  Note: the background and accent
bar use the FULL `blockHeight`, not clipped to the page. -/
def renderBlockquote (cfg : Config) (wrap : WrapFn) (qs : List QTok)
    (s : RState) : RState :=
  let text := sanitizeForPdf (List.intercalate [' '] (qs.map qtokText))
  let p := wrapText cfg wrap text fontSizeBody italic s
  let lineH := lineHOf fontSizeBody
  let padding : ℚ := 3
  let blockHeight := (p.2.length : ℚ) * lineH + padding * 2
  let s := ensureSpace cfg (min blockHeight 40) p.1
  let s := emit (Op.roundedRect MARGIN s.y (contentWidth cfg) blockHeight 1 1
    "F".data) s
  let s := emit (Op.rect MARGIN s.y 1 blockHeight "F".data) s
  let s := addSpace padding s
  let s := writeLines cfg p.2 fontSizeBody italic s
  let s := addSpace padding s
  addSpace 3 s

/-- The `filter(text|paragraph).map(…).join(" ")` of `renderList`
(export.ts 297–309). -/
def itemText (toks : List ItemTok) : Str :=
  List.intercalate [' ']
    (toks.filterMap fun t =>
      match t with
      | ItemTok.textTok ts => some (inlineTokensToText ts)
      | ItemTok.textRaw r => some r
      | ItemTok.para ts => some (inlineTokensToText ts)
      | _ => none)

/-- The wrapped-item-line loop of `renderList` (export.ts 323–327). -/
def itemLines (cfg : Config) (lineH indentMm : ℚ) :
    List Str → RState → RState
  | [], s => s
  | l :: ls, s =>
    let s := ensureSpace cfg lineH s
    let s := emit (Op.text l (MARGIN + indentMm + 5) s.y) s
    itemLines cfg lineH indentMm ls (addSpace lineH s)

/-- The non-recursive part of one list item (export.ts 296–327): bullet at
`MARGIN + indentMm`, wrapped lines at `MARGIN + indentMm + 5`.  Note
`splitTextToSize` runs BEFORE the font is set (source order). -/
def renderItemBody (cfg : Config) (wrap : WrapFn) (ordered : Bool)
    (toks : List ItemTok) (indent idx : ℕ) (s : RState) : RState :=
  let lineH := lineHOf fontSizeBody
  let indentMm : ℚ := (indent : ℚ) * 5
  let bullet : Str :=
    if ordered then (toString (idx + 1)).data ++ ['.'] else ['-']
  let text := sanitizeForPdf (itemText toks)
  let lines := wrap s.fontFamily s.fontStyle s.fontSize text
    (contentWidth cfg - indentMm - 8)
  let s := setFont helvetica normalStyle (setFontSize fontSizeBody s)
  let s := ensureSpace cfg lineH s
  let s := emit (Op.text bullet (MARGIN + indentMm) s.y) s
  itemLines cfg lineH indentMm lines s

mutual
/-- `renderList` (export.ts 291–338): items, then `addSpace(3)`. -/
def renderList (cfg : Config) (wrap : WrapFn) (ordered : Bool)
    (items : List Item) (indent : ℕ) (s : RState) : RState :=
  addSpace 3 (renderItems cfg wrap ordered items indent 0 s)
termination_by sizeOf items + 1

/-- The `token.items.forEach((item, idx) => …)` loop. -/
def renderItems (cfg : Config) (wrap : WrapFn) (ordered : Bool) :
    List Item → ℕ → ℕ → RState → RState
  | [], _, _, s => s
  | it :: rest, indent, idx, s =>
    renderItems cfg wrap ordered rest indent (idx + 1)
      (renderItem cfg wrap ordered it indent idx s)
termination_by items => sizeOf items

/-- One item: bullet + wrapped lines, then recurse into nested lists. -/
def renderItem (cfg : Config) (wrap : WrapFn) (ordered : Bool) :
    Item → ℕ → ℕ → RState → RState
  | Item.mk toks, indent, idx, s =>
    renderSubs cfg wrap toks indent
      (renderItemBody cfg wrap ordered toks indent idx s)
termination_by it => sizeOf it

/-- The `for (const sub of item.tokens) if (sub.type === "list") …` loop
(export.ts 330–334): nested lists at `indent + 1`. -/
def renderSubs (cfg : Config) (wrap : WrapFn) :
    List ItemTok → ℕ → RState → RState
  | [], _, s => s
  | ItemTok.sublist o its :: rest, indent, s =>
    renderSubs cfg wrap rest indent (renderList cfg wrap o its (indent + 1) s)
  | ItemTok.textTok _ :: rest, indent, s => renderSubs cfg wrap rest indent s
  | ItemTok.textRaw _ :: rest, indent, s => renderSubs cfg wrap rest indent s
  | ItemTok.para _ :: rest, indent, s => renderSubs cfg wrap rest indent s
  | ItemTok.otherTok :: rest, indent, s => renderSubs cfg wrap rest indent s
termination_by toks => sizeOf toks
end

/-- The header/row cell loop of `renderTable` (export.ts 374–381 and
394–405): each cell truncated to its first wrapped piece and drawn at
`MARGIN + i * colWidth + cellPadding`. -/
def drawCells (cfg : Config) (wrap : WrapFn) (colWidth cellPadding : ℚ) :
    List (List ITok) → ℕ → RState → RState
  | [], _, s => s
  | cell :: rest, i, s =>
    let text := sanitizeForPdf (inlineTokensToText cell)
    let truncated := wrap s.fontFamily s.fontStyle s.fontSize text
      (colWidth - cellPadding * 2)
    let s := emit (Op.text (truncated.headD [])
      (MARGIN + (i : ℚ) * colWidth + cellPadding) s.y) s
    drawCells cfg wrap colWidth cellPadding rest (i + 1) s

/-- The body-row loop of `renderTable` (export.ts 386–407): per row,
`ensureSpace`, a thin top border line, then the cells. -/
def tableRows (cfg : Config) (wrap : WrapFn) (colWidth cellPadding lineH : ℚ) :
    List (List (List ITok)) → RState → RState
  | [], s => s
  | row :: rest, s =>
    let s := ensureSpace cfg (lineH + cellPadding * 2) s
    let s := emit (Op.line MARGIN s.y (MARGIN + contentWidth cfg) s.y) s
    let s := addSpace cellPadding s
    let s := drawCells cfg wrap colWidth cellPadding row 0 s
    tableRows cfg wrap colWidth cellPadding lineH rest
      (addSpace (lineH + cellPadding) s)

/-- `renderTable` (export.ts 340–415).  `colWidth = contentWidth / colCount`
with NO guard against `colCount = 0` (the model's `ℚ` division returns 0
there where JS would give `Infinity`; no claim below observes that value at
`colCount = 0`). -/
def renderTable (cfg : Config) (wrap : WrapFn) (header : List (List ITok))
    (rows : List (List (List ITok))) (s : RState) : RState :=
  let cellPadding : ℚ := 2
  let fontSize := fontSizeSmall
  let lineH := lineHOf fontSize
  let colCount := header.length
  let colWidth := contentWidth cfg / (colCount : ℚ)
  let s := addSpace 3 s
  let s := ensureSpace cfg (lineH + cellPadding * 2) s
  let s := emit (Op.rect MARGIN s.y (contentWidth cfg)
    (lineH + cellPadding * 2) "F".data) s
  let s := emit (Op.rect MARGIN s.y (contentWidth cfg)
    (lineH + cellPadding * 2) "S".data) s
  let s := addSpace cellPadding s
  let s := setFont helvetica bold (setFontSize fontSize s)
  let s := drawCells cfg wrap colWidth cellPadding header 0 s
  let s := addSpace (lineH + cellPadding) s
  let s := setFont helvetica normalStyle s
  let s := tableRows cfg wrap colWidth cellPadding lineH rows s
  let s := emit (Op.line MARGIN s.y (MARGIN + contentWidth cfg) s.y) s
  addSpace 5 s

/-- `renderHr` (export.ts 417–423): note there is NO `ensureSpace` here. -/
def renderHr (cfg : Config) (s : RState) : RState :=
  let s := addSpace 4 s
  let s := emit (Op.line MARGIN s.y (MARGIN + contentWidth cfg) s.y) s
  addSpace 4 s

/-- JS whitespace test for `String.prototype.trim` (the code points that can
occur here; full JS trims a few more exotic ones, none produced upstream). -/
def jsSpace (c : Char) : Bool :=
  c = ' ' ∨ c = '\t' ∨ c = '\n' ∨ c = '\r' ∨ c = '\x0b' ∨ c = '\x0c'

def trimChars (s : Str) : Str :=
  ((s.dropWhile jsSpace).reverse.dropWhile jsSpace).reverse

/-- The `"html"` case of `renderToken` (export.ts 452–463). -/
def renderHtml (cfg : Config) (wrap : WrapFn) (text : Str) (s : RState) :
    RState :=
  let htmlText := sanitizeForPdf (stripInlineHtml text)
  if trimChars htmlText ≠ [] then
    let p := wrapText cfg wrap htmlText fontSizeBody normalStyle s
    let s := writeLines cfg p.2 fontSizeBody normalStyle p.1
    addSpace 3 s
  else s

-- ─── Document driver ──────────────────────────────────────────────────────

/-- `renderToken` (export.ts 426–467): dispatch on token kind; unknown kinds
do nothing. -/
def renderToken (cfg : Config) (wrap : WrapFn) : Tok → RState → RState
  | Tok.heading d ts, s => renderHeading cfg wrap d ts s
  | Tok.paragraph ts, s => renderParagraph cfg wrap ts s
  | Tok.code txt, s => renderCode cfg wrap txt s
  | Tok.blockquote qs, s => renderBlockquote cfg wrap qs s
  | Tok.list o its, s => renderList cfg wrap o its 0 s
  | Tok.table h r, s => renderTable cfg wrap h r s
  | Tok.hr, s => renderHr cfg s
  | Tok.space, s => addSpace 2 s
  | Tok.html txt, s => renderHtml cfg wrap txt s
  | Tok.other, s => s

/-- `render` (export.ts 470–474): fold the token sequence. -/
def render (cfg : Config) (wrap : WrapFn) : List Tok → RState → RState
  | [], s => s
  | t :: rest, s => render cfg wrap rest (renderToken cfg wrap t s)

/-- The `PdfRenderer` constructor (export.ts 104–110): one fresh page,
cursor at the top margin; jsPDF's default font is helvetica normal 16pt. -/
def initState : RState :=
  { y := MARGIN, page := 0, ops := [], fontFamily := helvetica,
    fontStyle := normalStyle, fontSize := 16 }

/-- `new PdfRenderer()` followed by `renderer.render(tokens)`. -/
def renderDoc (cfg : Config) (wrap : WrapFn) (toks : List Tok) : RState :=
  render cfg wrap toks initState

/-- Number of pages in the output (the constructor's page plus one per
`addPage`). -/
def pageCount (s : RState) : ℕ := s.page + 1

-- ─── Concrete instantiations used by counterexamples and witnesses ────────

/-- jsPDF A4 portrait in mm (rounded to the printed size). -/
def cfg0 : Config := { pageWidth := 210, pageHeight := 297 }

/-- A simple concrete text-measurer: never wraps (each text is one line). -/
def wrap0 : WrapFn := fun _ _ _ text _ => [text]

-- ═══ Lemmas about the glyph-safety filter ═════════════════════════════════

/-- A character matched by some replacement rule. -/
def hasRule (c : Char) : Prop := ∃ r ∈ UNICODE_TO_ASCII, c ∈ r.1

instance (c : Char) : Decidable (hasRule c) := by
  unfold hasRule; infer_instance

theorem applyRule_id (r : Str × Str) (s : Str) (h : ∀ c ∈ s, c ∉ r.1) :
    applyRule r s = s := by
  induction s with
  | nil => rfl
  | cons c cs ih =>
    have hc : c ∉ r.1 := h c (List.mem_cons_self c cs)
    simp only [applyRule, if_neg hc]
    rw [ih fun d hd => h d (List.mem_cons_of_mem c hd)]
    rfl

theorem foldl_applyRule_id (rs : List (Str × Str)) (s : Str)
    (h : ∀ r ∈ rs, ∀ c ∈ s, c ∉ r.1) :
    rs.foldl (fun acc r => applyRule r acc) s = s := by
  induction rs with
  | nil => rfl
  | cons r rest ih =>
    simp only [List.foldl_cons]
    rw [applyRule_id r s (h r (List.mem_cons_self r rest))]
    exact ih fun r' hr' => h r' (List.mem_cons_of_mem r hr')

theorem mem_applyRule {c : Char} {r : Str × Str} {s : Str}
    (h : c ∈ applyRule r s) : c ∈ r.2 ∨ (c ∈ s ∧ c ∉ r.1) := by
  induction s with
  | nil => simp [applyRule] at h
  | cons d ds ih =>
    simp only [applyRule] at h
    rcases List.mem_append.mp h with h1 | h2
    · by_cases hd : d ∈ r.1
      · rw [if_pos hd] at h1; exact Or.inl h1
      · rw [if_neg hd] at h1
        rcases List.mem_singleton.mp h1 with rfl
        exact Or.inr ⟨List.mem_cons_self _ _, hd⟩
    · rcases ih h2 with h3 | ⟨h4, h5⟩
      · exact Or.inl h3
      · exact Or.inr ⟨List.mem_cons_of_mem _ h4, h5⟩

theorem mem_foldl_applyRule {c : Char} {rs : List (Str × Str)} {s : Str}
    (h : c ∈ rs.foldl (fun acc r => applyRule r acc) s) :
    (∃ r ∈ rs, c ∈ r.2) ∨ (c ∈ s ∧ ∀ r ∈ rs, c ∉ r.1) := by
  induction rs generalizing s with
  | nil => exact Or.inr ⟨h, by simp⟩
  | cons r rest ih =>
    simp only [List.foldl_cons] at h
    rcases ih h with ⟨r', hr', hc⟩ | ⟨h4, h5⟩
    · exact Or.inl ⟨r', List.mem_cons_of_mem r hr', hc⟩
    · rcases mem_applyRule h4 with h6 | ⟨h7, h8⟩
      · exact Or.inl ⟨r, List.mem_cons_self r rest, h6⟩
      · refine Or.inr ⟨h7, fun r' hr' => ?_⟩
        rcases List.mem_cons.mp hr' with rfl | hr''
        · exact h8
        · exact h5 r' hr''

/-- Every character a rule can introduce is itself matched by no rule. -/
theorem replacements_clean :
    ∀ r ∈ UNICODE_TO_ASCII, ∀ c ∈ r.2, ¬ hasRule c := by decide

/-- Every character of a sanitized string is matched by no rule. -/
theorem sanitized_hasRule_free (s : Str) :
    ∀ c ∈ sanitizeForPdf s, ¬ hasRule c := by
  intro c hc
  rcases mem_foldl_applyRule hc with ⟨r, hr, hcr⟩ | ⟨_, h5⟩
  · exact replacements_clean r hr c hcr
  · rintro ⟨r, hr, hcr⟩
    exact h5 r hr hcr

/-- A string with no rule-matched character is returned unchanged. -/
theorem sanitizeForPdf_id (s : Str) (h : ∀ c ∈ s, ¬ hasRule c) :
    sanitizeForPdf s = s :=
  foldl_applyRule_id _ s fun r hr c hc hcr => h c hc ⟨r, hr, hcr⟩

/-- `sanitizeForPdf` is idempotent. -/
theorem sanitizeForPdf_idem (s : Str) :
    sanitizeForPdf (sanitizeForPdf s) = sanitizeForPdf s :=
  sanitizeForPdf_id _ (sanitized_hasRule_free s)

/-- All rule characters are outside ASCII. -/
theorem rules_non_ascii :
    ∀ r ∈ UNICODE_TO_ASCII, ∀ c ∈ r.1, ¬ c.toNat < 128 := by decide

/-- ASCII-only strings pass through unchanged. -/
theorem sanitizeForPdf_ascii (s : Str) (h : ∀ c ∈ s, c.toNat < 128) :
    sanitizeForPdf s = s :=
  sanitizeForPdf_id s fun c hc ⟨r, hr, hcr⟩ => rules_non_ascii r hr c hcr (h c hc)

-- ═══ State-invariant machinery for the page invariant ═════════════════════

/-- Every recorded text operation sits between the top and bottom margins of
its page. -/
def TextOpsOk (cfg : Config) (l : List (ℕ × Op)) : Prop :=
  ∀ e ∈ l, ∀ str x y, e.2 = Op.text str x y →
    MARGIN ≤ y ∧ y ≤ cfg.pageHeight - MARGIN

/-- Render-loop invariant: the cursor is at or below the top margin and all
text operations emitted so far are within the margins. -/
def Inv (cfg : Config) (s : RState) : Prop :=
  MARGIN ≤ s.y ∧ TextOpsOk cfg s.ops

@[simp] theorem emit_y (op : Op) (s : RState) : (emit op s).y = s.y := rfl
@[simp] theorem emit_page (op : Op) (s : RState) :
    (emit op s).page = s.page := rfl
@[simp] theorem emit_ops (op : Op) (s : RState) :
    (emit op s).ops = s.ops ++ [(s.page, op)] := rfl
@[simp] theorem emit_fontFamily (op : Op) (s : RState) :
    (emit op s).fontFamily = s.fontFamily := rfl
@[simp] theorem emit_fontStyle (op : Op) (s : RState) :
    (emit op s).fontStyle = s.fontStyle := rfl
@[simp] theorem emit_fontSize (op : Op) (s : RState) :
    (emit op s).fontSize = s.fontSize := rfl

@[simp] theorem addSpace_y (mm : ℚ) (s : RState) :
    (addSpace mm s).y = s.y + mm := rfl
@[simp] theorem addSpace_page (mm : ℚ) (s : RState) :
    (addSpace mm s).page = s.page := rfl
@[simp] theorem addSpace_ops (mm : ℚ) (s : RState) :
    (addSpace mm s).ops = s.ops := rfl
@[simp] theorem addSpace_fontFamily (mm : ℚ) (s : RState) :
    (addSpace mm s).fontFamily = s.fontFamily := rfl
@[simp] theorem addSpace_fontStyle (mm : ℚ) (s : RState) :
    (addSpace mm s).fontStyle = s.fontStyle := rfl
@[simp] theorem addSpace_fontSize (mm : ℚ) (s : RState) :
    (addSpace mm s).fontSize = s.fontSize := rfl

@[simp] theorem ensureSpace_ops (cfg : Config) (n : ℚ) (s : RState) :
    (ensureSpace cfg n s).ops = s.ops := by
  unfold ensureSpace; split <;> rfl
@[simp] theorem ensureSpace_fontFamily (cfg : Config) (n : ℚ) (s : RState) :
    (ensureSpace cfg n s).fontFamily = s.fontFamily := by
  unfold ensureSpace; split <;> rfl
@[simp] theorem ensureSpace_fontStyle (cfg : Config) (n : ℚ) (s : RState) :
    (ensureSpace cfg n s).fontStyle = s.fontStyle := by
  unfold ensureSpace; split <;> rfl
@[simp] theorem ensureSpace_fontSize (cfg : Config) (n : ℚ) (s : RState) :
    (ensureSpace cfg n s).fontSize = s.fontSize := by
  unfold ensureSpace; split <;> rfl

@[simp] theorem setFont_y (a b : Str) (s : RState) : (setFont a b s).y = s.y :=
  rfl
@[simp] theorem setFont_page (a b : Str) (s : RState) :
    (setFont a b s).page = s.page := rfl
@[simp] theorem setFont_ops (a b : Str) (s : RState) :
    (setFont a b s).ops = s.ops := rfl
@[simp] theorem setFontSize_y (n : ℚ) (s : RState) :
    (setFontSize n s).y = s.y := rfl
@[simp] theorem setFontSize_page (n : ℚ) (s : RState) :
    (setFontSize n s).page = s.page := rfl
@[simp] theorem setFontSize_ops (n : ℚ) (s : RState) :
    (setFontSize n s).ops = s.ops := rfl
@[simp] theorem setFont_fontFamily (a b : Str) (s : RState) :
    (setFont a b s).fontFamily = a := rfl
@[simp] theorem setFont_fontStyle (a b : Str) (s : RState) :
    (setFont a b s).fontStyle = b := rfl
@[simp] theorem setFont_fontSize (a b : Str) (s : RState) :
    (setFont a b s).fontSize = s.fontSize := rfl
@[simp] theorem setFontSize_fontFamily (n : ℚ) (s : RState) :
    (setFontSize n s).fontFamily = s.fontFamily := rfl
@[simp] theorem setFontSize_fontStyle (n : ℚ) (s : RState) :
    (setFontSize n s).fontStyle = s.fontStyle := rfl
@[simp] theorem setFontSize_fontSize (n : ℚ) (s : RState) :
    (setFontSize n s).fontSize = n := rfl

/-- After `ensureSpace`, either the needed height fits above the bottom
margin, or the cursor was reset to the top margin. -/
theorem ensureSpace_cases (cfg : Config) (n : ℚ) (s : RState) :
    (ensureSpace cfg n s).y + n ≤ cfg.pageHeight - MARGIN ∨
      (ensureSpace cfg n s).y = MARGIN := by
  unfold ensureSpace
  split
  · exact Or.inr rfl
  · rename_i h
    exact Or.inl (le_of_not_lt h)

theorem ensureSpace_y_lb (cfg : Config) (n : ℚ) (s : RState)
    (h : MARGIN ≤ s.y) : MARGIN ≤ (ensureSpace cfg n s).y := by
  unfold ensureSpace; split <;> simp [h]

theorem TextOpsOk_append (cfg : Config) {l : List (ℕ × Op)} (p : ℕ) (op : Op)
    (hl : TextOpsOk cfg l)
    (hop : ∀ str x y, op = Op.text str x y →
      MARGIN ≤ y ∧ y ≤ cfg.pageHeight - MARGIN) :
    TextOpsOk cfg (l ++ [(p, op)]) := by
  intro e he str x y hety
  rcases List.mem_append.mp he with h1 | h2
  · exact hl e h1 str x y hety
  · rcases List.mem_singleton.mp h2 with rfl
    exact hop str x y hety

theorem Inv_emit (cfg : Config) (op : Op) {s : RState} (hs : Inv cfg s)
    (hop : ∀ str x y, op = Op.text str x y →
      MARGIN ≤ y ∧ y ≤ cfg.pageHeight - MARGIN) : Inv cfg (emit op s) :=
  ⟨hs.1, by
    simp only [emit_ops]
    exact TextOpsOk_append cfg s.page op hs.2 hop⟩

theorem Inv_emit_nontext (cfg : Config) (op : Op) {s : RState}
    (hs : Inv cfg s) (hop : ∀ str x y, op ≠ Op.text str x y) :
    Inv cfg (emit op s) :=
  Inv_emit cfg op hs fun str x y h => absurd h (hop str x y)

theorem Inv_addSpace (cfg : Config) {mm : ℚ} {s : RState} (hmm : 0 ≤ mm)
    (hs : Inv cfg s) : Inv cfg (addSpace mm s) :=
  ⟨by simp only [addSpace_y]; linarith [hs.1], by simpa using hs.2⟩

theorem Inv_ensureSpace (cfg : Config) (n : ℚ) {s : RState}
    (hs : Inv cfg s) : Inv cfg (ensureSpace cfg n s) :=
  ⟨ensureSpace_y_lb cfg n s hs.1, by simpa using hs.2⟩

theorem Inv_setFont (cfg : Config) (a b : Str) {s : RState}
    (hs : Inv cfg s) : Inv cfg (setFont a b s) := hs

theorem Inv_setFontSize (cfg : Config) (n : ℚ) {s : RState}
    (hs : Inv cfg s) : Inv cfg (setFontSize n s) := hs

theorem lineHOf_nonneg {fs : ℚ} (h : 0 ≤ fs) : 0 ≤ lineHOf fs := by
  unfold lineHOf LINE_HEIGHT
  positivity

theorem headingFontSize_pos (d : ℕ) : 0 < headingFontSize d := by
  unfold headingFontSize fontSizeBody
  split <;> [norm_num; split <;> [norm_num; split <;>
    [norm_num; split <;> norm_num]]]

/-- A text drawn right after `ensureSpace lineH` at the resulting cursor is
within the margins. -/
theorem ensureSpace_text_bounds (cfg : Config) {lineH : ℚ} {s : RState}
    (hH : 0 ≤ lineH) (hpg : 2 * MARGIN ≤ cfg.pageHeight) (hy : MARGIN ≤ s.y) :
    MARGIN ≤ (ensureSpace cfg lineH s).y ∧
      (ensureSpace cfg lineH s).y ≤ cfg.pageHeight - MARGIN := by
  refine ⟨ensureSpace_y_lb cfg lineH s hy, ?_⟩
  rcases ensureSpace_cases cfg lineH s with h | h
  · linarith
  · rw [h]; unfold MARGIN at hpg ⊢; linarith

theorem Inv_writeLinesLoop (cfg : Config) {lineH : ℚ} (ls : List Str)
    (hH : 0 ≤ lineH) (hpg : 2 * MARGIN ≤ cfg.pageHeight) {s : RState}
    (hs : Inv cfg s) : Inv cfg (writeLinesLoop cfg lineH ls s) := by
  induction ls generalizing s with
  | nil => exact hs
  | cons l rest ih =>
    simp only [writeLinesLoop]
    have h1 := Inv_ensureSpace cfg lineH hs
    have hb := ensureSpace_text_bounds cfg hH hpg hs.1
    refine ih (Inv_addSpace cfg hH (Inv_emit cfg _ h1 ?_))
    intro str x y h
    cases h
    exact hb

theorem Inv_writeLines (cfg : Config) (lines : List Str) {fs : ℚ}
    (st : Str) (hfs : 0 ≤ fs) (hpg : 2 * MARGIN ≤ cfg.pageHeight)
    {s : RState} (hs : Inv cfg s) :
    Inv cfg (writeLines cfg lines fs st s) :=
  Inv_writeLinesLoop cfg lines (lineHOf_nonneg hfs) hpg hs

theorem Inv_renderHeading (cfg : Config) (wrap : WrapFn) (depth : ℕ)
    (toks : List ITok) (hpg : 2 * MARGIN ≤ cfg.pageHeight) {s : RState}
    (hs : Inv cfg s) : Inv cfg (renderHeading cfg wrap depth toks s) := by
  unfold renderHeading
  have hpre : (0 : ℚ) ≤ if depth ≤ 2 then 6 else 4 := by split <;> norm_num
  have h1 : Inv cfg (writeLines cfg
      (wrapText cfg wrap (sanitizeForPdf (inlineTokensToText toks))
        (headingFontSize depth) bold s).2 (headingFontSize depth) bold
      (addSpace (if depth ≤ 2 then 6 else 4)
        (wrapText cfg wrap (sanitizeForPdf (inlineTokensToText toks))
          (headingFontSize depth) bold s).1)) :=
    Inv_writeLines cfg _ bold (headingFontSize_pos depth).le hpg
      (Inv_addSpace cfg hpre hs)
  refine Inv_addSpace cfg (by norm_num) ?_
  split
  · exact Inv_addSpace cfg (by norm_num)
      (Inv_emit_nontext cfg _ h1 (by intro str x y h; cases h))
  · exact h1

theorem Inv_renderParagraph (cfg : Config) (wrap : WrapFn)
    (toks : List ITok) (hpg : 2 * MARGIN ≤ cfg.pageHeight) {s : RState}
    (hs : Inv cfg s) : Inv cfg (renderParagraph cfg wrap toks s) := by
  unfold renderParagraph
  exact Inv_addSpace cfg (by norm_num)
    (Inv_writeLines cfg _ normalStyle (by norm_num [fontSizeBody]) hpg hs)

theorem Inv_codeLoop (cfg : Config) (wrap : WrapFn) {lineH padding : ℚ}
    (ls : List Str) (hH : 0 ≤ lineH) (hpg : 2 * MARGIN ≤ cfg.pageHeight)
    {s : RState} (hs : Inv cfg s) :
    Inv cfg (codeLoop cfg wrap lineH padding ls s) := by
  induction ls generalizing s with
  | nil => exact hs
  | cons l rest ih =>
    simp only [codeLoop]
    have h1 := Inv_ensureSpace cfg lineH hs
    have hb := ensureSpace_text_bounds cfg hH hpg hs.1
    refine ih (Inv_addSpace cfg hH (Inv_emit cfg _ h1 ?_))
    intro str x y h
    cases h
    exact hb

theorem Inv_renderCode (cfg : Config) (wrap : WrapFn) (text : Str)
    (hpg : 2 * MARGIN ≤ cfg.pageHeight) {s : RState} (hs : Inv cfg s) :
    Inv cfg (renderCode cfg wrap text s) := by
  unfold renderCode
  refine Inv_addSpace cfg (by norm_num) (Inv_addSpace cfg (by norm_num) ?_)
  refine Inv_codeLoop cfg wrap _
    (lineHOf_nonneg (by norm_num [fontSizeCode])) hpg ?_
  refine Inv_setFont cfg _ _ (Inv_setFontSize cfg _ ?_)
  refine Inv_addSpace cfg (by norm_num) ?_
  exact Inv_emit_nontext cfg _ (Inv_ensureSpace cfg _ hs)
    (by intro str x y h; cases h)

theorem Inv_renderBlockquote (cfg : Config) (wrap : WrapFn) (qs : List QTok)
    (hpg : 2 * MARGIN ≤ cfg.pageHeight) {s : RState} (hs : Inv cfg s) :
    Inv cfg (renderBlockquote cfg wrap qs s) := by
  unfold renderBlockquote
  refine Inv_addSpace cfg (by norm_num) (Inv_addSpace cfg (by norm_num) ?_)
  refine Inv_writeLines cfg _ italic (by norm_num [fontSizeBody]) hpg ?_
  refine Inv_addSpace cfg (by norm_num) ?_
  refine Inv_emit_nontext cfg _ ?_ (by intro str x y h; cases h)
  refine Inv_emit_nontext cfg _ ?_ (by intro str x y h; cases h)
  exact Inv_ensureSpace cfg _ hs

theorem Inv_itemLines (cfg : Config) {lineH indentMm : ℚ} (ls : List Str)
    (hH : 0 ≤ lineH) (hpg : 2 * MARGIN ≤ cfg.pageHeight) {s : RState}
    (hs : Inv cfg s) : Inv cfg (itemLines cfg lineH indentMm ls s) := by
  induction ls generalizing s with
  | nil => exact hs
  | cons l rest ih =>
    simp only [itemLines]
    have h1 := Inv_ensureSpace cfg lineH hs
    have hb := ensureSpace_text_bounds cfg hH hpg hs.1
    refine ih (Inv_addSpace cfg hH (Inv_emit cfg _ h1 ?_))
    intro str x y h
    cases h
    exact hb

theorem Inv_renderItemBody (cfg : Config) (wrap : WrapFn) (ordered : Bool)
    (toks : List ItemTok) (indent idx : ℕ)
    (hpg : 2 * MARGIN ≤ cfg.pageHeight) {s : RState} (hs : Inv cfg s) :
    Inv cfg (renderItemBody cfg wrap ordered toks indent idx s) := by
  unfold renderItemBody
  have hH : (0 : ℚ) ≤ lineHOf fontSizeBody :=
    lineHOf_nonneg (by norm_num [fontSizeBody])
  refine Inv_itemLines cfg _ hH hpg ?_
  have h1 : Inv cfg (ensureSpace cfg (lineHOf fontSizeBody)
      (setFont helvetica normalStyle (setFontSize fontSizeBody s))) :=
    Inv_ensureSpace cfg _ hs
  have hb := @ensureSpace_text_bounds cfg (lineHOf fontSizeBody)
    (setFont helvetica normalStyle (setFontSize fontSizeBody s)) hH hpg hs.1
  refine Inv_emit cfg _ h1 ?_
  intro str x y h
  cases h
  exact hb

mutual
theorem Inv_renderList (cfg : Config) (wrap : WrapFn) (ordered : Bool)
    (items : List Item) (indent : ℕ) (hpg : 2 * MARGIN ≤ cfg.pageHeight)
    {s : RState} (hs : Inv cfg s) :
    Inv cfg (renderList cfg wrap ordered items indent s) := by
  rw [renderList]
  exact Inv_addSpace cfg (by norm_num)
    (Inv_renderItems cfg wrap ordered items indent 0 hpg hs)
termination_by sizeOf items + 1

theorem Inv_renderItems (cfg : Config) (wrap : WrapFn) (ordered : Bool)
    (items : List Item) (indent idx : ℕ)
    (hpg : 2 * MARGIN ≤ cfg.pageHeight) {s : RState} (hs : Inv cfg s) :
    Inv cfg (renderItems cfg wrap ordered items indent idx s) := by
  cases items with
  | nil => simpa only [renderItems] using hs
  | cons it rest =>
    simp only [renderItems]
    exact Inv_renderItems cfg wrap ordered rest indent (idx + 1) hpg
      (Inv_renderItem cfg wrap ordered it indent idx hpg hs)
termination_by sizeOf items

theorem Inv_renderItem (cfg : Config) (wrap : WrapFn) (ordered : Bool)
    (it : Item) (indent idx : ℕ) (hpg : 2 * MARGIN ≤ cfg.pageHeight)
    {s : RState} (hs : Inv cfg s) :
    Inv cfg (renderItem cfg wrap ordered it indent idx s) := by
  cases it with
  | mk toks =>
    simp only [renderItem]
    exact Inv_renderSubs cfg wrap toks indent hpg
      (Inv_renderItemBody cfg wrap ordered toks indent idx hpg hs)
termination_by sizeOf it

theorem Inv_renderSubs (cfg : Config) (wrap : WrapFn) (toks : List ItemTok)
    (indent : ℕ) (hpg : 2 * MARGIN ≤ cfg.pageHeight) {s : RState}
    (hs : Inv cfg s) : Inv cfg (renderSubs cfg wrap toks indent s) := by
  cases toks with
  | nil => simpa only [renderSubs] using hs
  | cons t rest =>
    cases t with
    | sublist o its =>
      simp only [renderSubs]
      exact Inv_renderSubs cfg wrap rest indent hpg
        (Inv_renderList cfg wrap o its (indent + 1) hpg hs)
    | textTok ts =>
      simp only [renderSubs]
      exact Inv_renderSubs cfg wrap rest indent hpg hs
    | textRaw r =>
      simp only [renderSubs]
      exact Inv_renderSubs cfg wrap rest indent hpg hs
    | para ts =>
      simp only [renderSubs]
      exact Inv_renderSubs cfg wrap rest indent hpg hs
    | otherTok =>
      simp only [renderSubs]
      exact Inv_renderSubs cfg wrap rest indent hpg hs
termination_by sizeOf toks
end

theorem Inv_drawCells (cfg : Config) (wrap : WrapFn)
    {colWidth cellPadding : ℚ} (cells : List (List ITok)) (i : ℕ)
    {s : RState} (hs : Inv cfg s) (hy : s.y ≤ cfg.pageHeight - MARGIN) :
    Inv cfg (drawCells cfg wrap colWidth cellPadding cells i s) := by
  induction cells generalizing i s with
  | nil => exact hs
  | cons c rest ih =>
    simp only [drawCells]
    refine ih (i + 1) (Inv_emit cfg _ hs ?_) (by simpa using hy)
    intro str x y h
    cases h
    exact ⟨hs.1, hy⟩

theorem Inv_tableRows (cfg : Config) (wrap : WrapFn)
    {colWidth cellPadding lineH : ℚ} (rows : List (List (List ITok)))
    (hH : 0 ≤ lineH) (hcp : 0 ≤ cellPadding)
    (hbound : MARGIN + cellPadding ≤ cfg.pageHeight - MARGIN) {s : RState}
    (hs : Inv cfg s) :
    Inv cfg (tableRows cfg wrap colWidth cellPadding lineH rows s) := by
  induction rows generalizing s with
  | nil => exact hs
  | cons row rest ih =>
    simp only [tableRows]
    refine ih (Inv_addSpace cfg (by linarith) (Inv_drawCells cfg wrap row 0
      (Inv_addSpace cfg hcp (Inv_emit_nontext cfg _
        (Inv_ensureSpace cfg _ hs) (by intro str x y h; cases h))) ?_))
    simp only [addSpace_y, emit_y]
    rcases ensureSpace_cases cfg (lineH + cellPadding * 2) s with h | h
    · linarith
    · rw [h]; linarith

theorem Inv_renderTable (cfg : Config) (wrap : WrapFn)
    (header : List (List ITok)) (rows : List (List (List ITok)))
    (hpg : 2 * MARGIN + 4 ≤ cfg.pageHeight) {s : RState} (hs : Inv cfg s) :
    Inv cfg (renderTable cfg wrap header rows s) := by
  unfold renderTable
  have hH : (0 : ℚ) ≤ lineHOf fontSizeSmall :=
    lineHOf_nonneg (by norm_num [fontSizeSmall])
  have hM : MARGIN + 2 ≤ cfg.pageHeight - MARGIN := by
    unfold MARGIN at hpg ⊢; linarith
  refine Inv_addSpace cfg (by norm_num) ?_
  refine Inv_emit_nontext cfg _ ?_ (by intro str x y h; cases h)
  refine Inv_tableRows cfg wrap rows hH (by norm_num) hM ?_
  refine Inv_setFont cfg _ _ (Inv_addSpace cfg (by linarith) ?_)
  refine Inv_drawCells cfg wrap header 0 (Inv_setFont cfg _ _
    (Inv_setFontSize cfg _ (Inv_addSpace cfg (by norm_num)
      (Inv_emit_nontext cfg _ (Inv_emit_nontext cfg _
        (Inv_ensureSpace cfg _ (Inv_addSpace cfg (by norm_num) hs))
        (by intro str x y h; cases h)) (by intro str x y h; cases h))))) ?_
  simp only [setFont_y, setFontSize_y, addSpace_y, emit_y]
  rcases ensureSpace_cases cfg (lineHOf fontSizeSmall + 2 * 2)
    (addSpace 3 s) with h | h
  · linarith
  · rw [h]; linarith

theorem Inv_renderHr (cfg : Config) {s : RState} (hs : Inv cfg s) :
    Inv cfg (renderHr cfg s) := by
  unfold renderHr
  exact Inv_addSpace cfg (by norm_num) (Inv_emit_nontext cfg _
    (Inv_addSpace cfg (by norm_num) hs) (by intro str x y h; cases h))

theorem Inv_renderHtml (cfg : Config) (wrap : WrapFn) (text : Str)
    (hpg : 2 * MARGIN ≤ cfg.pageHeight) {s : RState} (hs : Inv cfg s) :
    Inv cfg (renderHtml cfg wrap text s) := by
  simp only [renderHtml]
  split
  · exact Inv_addSpace cfg (by norm_num)
      (Inv_writeLines cfg _ normalStyle (by norm_num [fontSizeBody]) hpg hs)
  · exact hs

theorem Inv_renderToken (cfg : Config) (wrap : WrapFn) (t : Tok)
    (hpg : 2 * MARGIN + 4 ≤ cfg.pageHeight) {s : RState} (hs : Inv cfg s) :
    Inv cfg (renderToken cfg wrap t s) := by
  have hpg2 : 2 * MARGIN ≤ cfg.pageHeight := by linarith
  cases t with
  | heading d ts =>
    simpa only [renderToken] using Inv_renderHeading cfg wrap d ts hpg2 hs
  | paragraph ts =>
    simpa only [renderToken] using Inv_renderParagraph cfg wrap ts hpg2 hs
  | code txt =>
    simpa only [renderToken] using Inv_renderCode cfg wrap txt hpg2 hs
  | blockquote qs =>
    simpa only [renderToken] using Inv_renderBlockquote cfg wrap qs hpg2 hs
  | list o its =>
    simpa only [renderToken] using Inv_renderList cfg wrap o its 0 hpg2 hs
  | table h r =>
    simpa only [renderToken] using Inv_renderTable cfg wrap h r hpg hs
  | hr => simpa only [renderToken] using Inv_renderHr cfg hs
  | space =>
    simpa only [renderToken] using @Inv_addSpace cfg 2 s (by norm_num) hs
  | html txt =>
    simpa only [renderToken] using Inv_renderHtml cfg wrap txt hpg2 hs
  | other => simpa only [renderToken] using hs

theorem Inv_render (cfg : Config) (wrap : WrapFn) (toks : List Tok)
    (hpg : 2 * MARGIN + 4 ≤ cfg.pageHeight) {s : RState} (hs : Inv cfg s) :
    Inv cfg (render cfg wrap toks s) := by
  induction toks generalizing s with
  | nil => exact hs
  | cons t rest ih =>
    simp only [render]
    exact ih (Inv_renderToken cfg wrap t hpg hs)

theorem Inv_initState (cfg : Config) : Inv cfg initState :=
  ⟨le_refl _, by intro e he; simp [initState] at he⟩

-- ═══ Text-operation traces ════════════════════════════════════════════════

/-- The strings of the text operations of an operation list, in order. -/
def opTexts (l : List (ℕ × Op)) : List Str :=
  l.filterMap fun e =>
    match e.2 with
    | Op.text str _ _ => some str
    | _ => none

theorem opTexts_append (l1 l2 : List (ℕ × Op)) :
    opTexts (l1 ++ l2) = opTexts l1 ++ opTexts l2 :=
  List.filterMap_append l1 l2 _

theorem opTexts_snoc_text (l : List (ℕ × Op)) (p : ℕ) (str : Str)
    (x y : ℚ) :
    opTexts (l ++ [(p, Op.text str x y)]) = opTexts l ++ [str] := by
  rw [opTexts_append]; rfl

theorem opTexts_snoc_nontext (l : List (ℕ × Op)) (p : ℕ) (op : Op)
    (h : ∀ str x y, op ≠ Op.text str x y) :
    opTexts (l ++ [(p, op)]) = opTexts l := by
  rw [opTexts_append]
  cases op with
  | text str x y => exact absurd rfl (h str x y)
  | rect x y w h m => simp [opTexts]
  | roundedRect x y w h rx ry m => simp [opTexts]
  | line a b c d => simp [opTexts]

theorem codeLoop_texts (cfg : Config) (wrap : WrapFn) (lineH padding : ℚ)
    (ls : List Str) (s : RState) :
    opTexts ((codeLoop cfg wrap lineH padding ls s).ops) =
      opTexts s.ops ++ ls.map (fun cl =>
        (wrap s.fontFamily s.fontStyle s.fontSize
          (if cl = [] then [' '] else cl)
          (contentWidth cfg - padding * 2)).headD []) := by
  induction ls generalizing s with
  | nil => simp [codeLoop]
  | cons cl rest ih =>
    simp only [codeLoop]
    rw [ih]
    simp only [addSpace_ops, addSpace_fontFamily, addSpace_fontStyle,
      addSpace_fontSize, emit_ops, emit_fontFamily, emit_fontStyle,
      emit_fontSize, ensureSpace_ops, ensureSpace_fontFamily,
      ensureSpace_fontStyle, ensureSpace_fontSize, opTexts_snoc_text,
      List.map_cons, List.append_assoc, List.singleton_append]

/-- The full text trace of `renderCode`: one text operation per source line,
in order, each the FIRST wrapped piece (truncation, not wrapping) of the
line measured in courier at the code font size against
`contentWidth - 2 * padding`. -/
theorem renderCode_texts (cfg : Config) (wrap : WrapFn) (txt : Str)
    (s : RState) :
    opTexts ((renderCode cfg wrap txt s).ops) =
      opTexts s.ops ++ (splitLines (sanitizeForPdf txt)).map (fun cl =>
        (wrap courier normalStyle fontSizeCode
          (if cl = [] then [' '] else cl)
          (contentWidth cfg - 3 * 2)).headD []) := by
  unfold renderCode
  rw [addSpace_ops, addSpace_ops, codeLoop_texts]
  simp only [setFont, setFontSize, addSpace_ops, emit_ops, ensureSpace_ops]
  rw [opTexts_snoc_nontext _ _ _ (by intro str x y h; cases h)]

theorem splitLines_ne_nil (s : Str) : splitLines s ≠ [] := by
  cases s with
  | nil => simp [splitLines]
  | cons c cs =>
    simp only [splitLines]
    split
    · simp
    · split <;> simp_all

theorem splitLines_length (s : Str) :
    (splitLines s).length = s.count '\n' + 1 := by
  induction s with
  | nil => simp [splitLines]
  | cons c cs ih =>
    simp only [splitLines]
    by_cases hc : c = '\n'
    · subst hc
      simp [List.count_cons, ih]
    · rw [if_neg hc]
      rcases h : splitLines cs with _ | ⟨l, ls⟩
      · exact absurd h (splitLines_ne_nil cs)
      · have : (l :: ls).length = cs.count '\n' + 1 := h ▸ ih
        simp only [List.length_cons] at this ⊢
        rw [List.count_cons]
        simp [hc, this]

theorem newline_not_in_rules :
    ∀ r ∈ UNICODE_TO_ASCII, '\n' ∉ r.1 ∧ '\n' ∉ r.2 := by decide

theorem count_applyRule (r : Str × Str) (hr1 : '\n' ∉ r.1)
    (hr2 : '\n' ∉ r.2) (s : Str) :
    (applyRule r s).count '\n' = s.count '\n' := by
  induction s with
  | nil => rfl
  | cons c cs ih =>
    simp only [applyRule]
    by_cases hc : c ∈ r.1
    · rw [if_pos hc, List.count_append, ih,
        List.count_eq_zero_of_not_mem hr2, List.count_cons]
      have : ¬ c = '\n' := fun h => hr1 (h ▸ hc)
      simp [this]
    · rw [if_neg hc]
      simp only [List.singleton_append, List.count_cons, ih]

theorem count_sanitize (s : Str) :
    (sanitizeForPdf s).count '\n' = s.count '\n' := by
  unfold sanitizeForPdf
  generalize hrs : UNICODE_TO_ASCII = rs
  have hnl : ∀ r ∈ rs, '\n' ∉ r.1 ∧ '\n' ∉ r.2 := hrs ▸ newline_not_in_rules
  clear hrs
  induction rs generalizing s with
  | nil => rfl
  | cons r rest ih =>
    simp only [List.foldl_cons]
    rw [ih _ fun r' hr' => hnl r' (List.mem_cons_of_mem r hr'),
      count_applyRule r (hnl r (List.mem_cons_self r rest)).1
        (hnl r (List.mem_cons_self r rest)).2]

/-- Sanitisation neither adds nor removes line breaks, so the number of
rendered code lines equals the number of source lines. -/
theorem splitLines_sanitize_length (txt : Str) :
    (splitLines (sanitizeForPdf txt)).length = (splitLines txt).length := by
  rw [splitLines_length, splitLines_length, count_sanitize]

-- ═══ Heading separator and spacing (machinery for the heading claim) ══════

/-- Number of `line` (stroked-segment) operations in an operation list. -/
def countLineOps (l : List (ℕ × Op)) : ℕ :=
  (l.filter fun e =>
    match e.2 with
    | Op.line _ _ _ _ => true
    | _ => false).length

theorem countLineOps_append (l1 l2 : List (ℕ × Op)) :
    countLineOps (l1 ++ l2) = countLineOps l1 + countLineOps l2 := by
  unfold countLineOps
  rw [List.filter_append, List.length_append]

theorem countLineOps_snoc_text (l : List (ℕ × Op)) (p : ℕ) (str : Str)
    (x y : ℚ) :
    countLineOps (l ++ [(p, Op.text str x y)]) = countLineOps l := by
  rw [countLineOps_append]; rfl

theorem countLineOps_snoc_line (l : List (ℕ × Op)) (p : ℕ) (a b c d : ℚ) :
    countLineOps (l ++ [(p, Op.line a b c d)]) = countLineOps l + 1 := by
  rw [countLineOps_append]; rfl

theorem countLineOps_writeLinesLoop (cfg : Config) (lineH : ℚ)
    (ls : List Str) (s : RState) :
    countLineOps ((writeLinesLoop cfg lineH ls s).ops) =
      countLineOps s.ops := by
  induction ls generalizing s with
  | nil => rfl
  | cons l rest ih =>
    simp only [writeLinesLoop]
    rw [ih]
    simp only [addSpace_ops, emit_ops, ensureSpace_ops,
      countLineOps_snoc_text]

/-- `renderHeading` draws exactly one separator line when the level is 1 and
none otherwise. -/
@[simp] theorem wrapText_fst_y (cfg : Config) (wrap : WrapFn) (t : Str)
    (fs : ℚ) (st : Str) (s : RState) :
    (wrapText cfg wrap t fs st s).1.y = s.y := rfl
@[simp] theorem wrapText_fst_page (cfg : Config) (wrap : WrapFn) (t : Str)
    (fs : ℚ) (st : Str) (s : RState) :
    (wrapText cfg wrap t fs st s).1.page = s.page := rfl
@[simp] theorem wrapText_fst_ops (cfg : Config) (wrap : WrapFn) (t : Str)
    (fs : ℚ) (st : Str) (s : RState) :
    (wrapText cfg wrap t fs st s).1.ops = s.ops := rfl
theorem wrapText_snd (cfg : Config) (wrap : WrapFn) (t : Str) (fs : ℚ)
    (st : Str) (s : RState) :
    (wrapText cfg wrap t fs st s).2 =
      wrap helvetica st fs t (contentWidth cfg) := rfl

theorem renderHeading_lineCount (cfg : Config) (wrap : WrapFn) (depth : ℕ)
    (toks : List ITok) (s : RState) :
    countLineOps ((renderHeading cfg wrap depth toks s).ops) =
      countLineOps s.ops + (if depth = 1 then 1 else 0) := by
  unfold renderHeading
  by_cases hd : depth = 1
  · simp only [if_pos hd, addSpace_ops, emit_ops, writeLines]
    rw [countLineOps_snoc_line, countLineOps_writeLinesLoop]
    simp
  · simp only [if_neg hd, addSpace_ops, writeLines]
    rw [countLineOps_writeLinesLoop]
    simp

/-- If all the lines fit above the bottom margin, `writeLinesLoop` never
paginates: it advances the cursor by exactly `n·lineH` on the same page, and
every operation it appends is a text operation drawn at least `lineH` above
the final cursor. -/
theorem wll_nobreak (cfg : Config) {lineH : ℚ} (h0 : 0 ≤ lineH)
    (ls : List Str) {s : RState}
    (h : s.y + (ls.length : ℚ) * lineH ≤ cfg.pageHeight - MARGIN) :
    (writeLinesLoop cfg lineH ls s).y = s.y + (ls.length : ℚ) * lineH
    ∧ (writeLinesLoop cfg lineH ls s).page = s.page
    ∧ ∀ e ∈ (writeLinesLoop cfg lineH ls s).ops, e ∈ s.ops ∨
        ∃ str y', e = (s.page, Op.text str MARGIN y') ∧
          y' + lineH ≤ s.y + (ls.length : ℚ) * lineH := by
  induction ls generalizing s with
  | nil =>
    refine ⟨by simp [writeLinesLoop], rfl, fun e he => Or.inl he⟩
  | cons cl rest ih =>
    have hlen : 0 ≤ ((rest.length : ℚ)) * lineH :=
      mul_nonneg (Nat.cast_nonneg _) h0
    have hlc : (((cl :: rest).length : ℚ)) * lineH =
        (rest.length : ℚ) * lineH + lineH := by
      push_cast [List.length_cons]; ring
    rw [hlc] at h
    have hfit : ¬ s.y + lineH > cfg.pageHeight - MARGIN := by
      push_neg; linarith
    have hes : ensureSpace cfg lineH s = s := by
      unfold ensureSpace; rw [if_neg hfit]
    simp only [writeLinesLoop, hes]
    have harg : (addSpace lineH (emit (Op.text cl MARGIN s.y) s)).y +
        (rest.length : ℚ) * lineH ≤ cfg.pageHeight - MARGIN := by
      simp only [addSpace_y, emit_y]; linarith
    obtain ⟨ih1, ih2, ih3⟩ := ih harg
    refine ⟨?_, ?_, ?_⟩
    · rw [ih1]
      simp only [addSpace_y, emit_y]
      rw [hlc]; ring
    · rw [ih2]; rfl
    · intro e he
      rcases ih3 e he with he1 | ⟨str, y', rfl, hb⟩
      · simp only [addSpace_ops, emit_ops] at he1
        rcases List.mem_append.mp he1 with he2 | he3
        · exact Or.inl he2
        · rcases List.mem_singleton.mp he3 with rfl
          refine Or.inr ⟨cl, s.y, rfl, ?_⟩
          rw [hlc]; linarith
      · refine Or.inr ⟨str, y', rfl, ?_⟩
        simp only [addSpace_y, emit_y] at hb
        rw [hlc]; linarith

/-- The wrapped heading lines (observer: exactly what `wrapText` passes to
`writeLines` inside `renderHeading`). -/
def headingLines (cfg : Config) (wrap : WrapFn) (depth : ℕ)
    (toks : List ITok) : List Str :=
  wrap helvetica bold (headingFontSize depth)
    (sanitizeForPdf (inlineTokensToText toks)) (contentWidth cfg)

/-- `renderHeading` without pagination: cursor advance is
`pre + n·lineH + post` with `pre = 6` for levels 1–2 and `4` otherwise and
`post = 4` for level 1 (underline gap + trailing space) and `2` otherwise;
level 1 places its full-width separator at the cursor position immediately
after the written text, strictly below every text line. -/
theorem renderHeading_nobreak (cfg : Config) (wrap : WrapFn) (depth : ℕ)
    (toks : List ITok) {s : RState}
    (h : s.y + 6 + ((headingLines cfg wrap depth toks).length : ℚ) *
      lineHOf (headingFontSize depth) ≤ cfg.pageHeight - MARGIN) :
    (renderHeading cfg wrap depth toks s).y =
        s.y + (if depth ≤ 2 then (6 : ℚ) else 4)
          + ((headingLines cfg wrap depth toks).length : ℚ) *
            lineHOf (headingFontSize depth)
          + (if depth = 1 then (4 : ℚ) else 2)
    ∧ (renderHeading cfg wrap depth toks s).page = s.page
    ∧ (depth = 1 →
        (s.page, Op.line MARGIN
            (s.y + 6 + ((headingLines cfg wrap depth toks).length : ℚ) *
              lineHOf (headingFontSize depth))
            (MARGIN + contentWidth cfg)
            (s.y + 6 + ((headingLines cfg wrap depth toks).length : ℚ) *
              lineHOf (headingFontSize depth)))
          ∈ (renderHeading cfg wrap depth toks s).ops)
    ∧ ∀ e ∈ (renderHeading cfg wrap depth toks s).ops, e ∉ s.ops →
        ∀ str x y', e.2 = Op.text str x y' →
          y' + lineHOf (headingFontSize depth) ≤
            s.y + (if depth ≤ 2 then (6 : ℚ) else 4)
              + ((headingLines cfg wrap depth toks).length : ℚ) *
                lineHOf (headingFontSize depth) := by
  have h0 : 0 ≤ lineHOf (headingFontSize depth) :=
    lineHOf_nonneg (headingFontSize_pos depth).le
  have hpre : (if depth ≤ 2 then (6 : ℚ) else 4) ≤ 6 := by
    split <;> norm_num
  unfold renderHeading
  simp only [writeLines]
  set n : ℚ := ((headingLines cfg wrap depth toks).length : ℚ) with hn
  set lineH : ℚ := lineHOf (headingFontSize depth) with hlh
  set pre : ℚ := (if depth ≤ 2 then (6 : ℚ) else 4) with hpredef
  set s2 : RState := setFont helvetica bold
    (setFontSize (headingFontSize depth)
      (addSpace pre (wrapText cfg wrap
        (sanitizeForPdf (inlineTokensToText toks))
        (headingFontSize depth) bold s).1)) with hs2
  have hy2 : s2.y = s.y + pre := rfl
  have hp2 : s2.page = s.page := rfl
  have hops2 : s2.ops = s.ops := rfl
  have hwsnd : (wrapText cfg wrap (sanitizeForPdf (inlineTokensToText toks))
      (headingFontSize depth) bold s).2 =
      headingLines cfg wrap depth toks := rfl
  have harg : s2.y + ((headingLines cfg wrap depth toks).length : ℚ) *
      lineH ≤ cfg.pageHeight - MARGIN := by
    rw [hy2, ← hn]
    linarith
  obtain ⟨w1, w2, w3⟩ := wll_nobreak cfg h0 (headingLines cfg wrap depth toks)
    harg
  rw [← hn] at w1
  rw [hwsnd]
  set W : RState := writeLinesLoop cfg lineH
    (headingLines cfg wrap depth toks) s2 with hW
  have hWy : W.y = s.y + pre + n * lineH := by rw [w1, hy2]
  by_cases hd : depth = 1
  · have hpre6 : pre = 6 := by
      rw [hpredef, if_pos (by omega : depth ≤ 2)]
    simp only [if_pos hd]
    refine ⟨?_, ?_, ?_, ?_⟩
    · simp only [addSpace_y, emit_y]
      rw [hWy, hpre6]; ring
    · simp only [addSpace_page, emit_page]
      simp only [w2, hp2]
    · intro _
      simp only [addSpace_ops, emit_ops]
      refine List.mem_append_right _ ?_
      simp only [List.mem_singleton, w2, hp2, hWy, hpre6]
    · intro e he hnew str x y' hety
      simp only [addSpace_ops, emit_ops] at he
      rcases List.mem_append.mp he with he1 | he2
      · rcases w3 e he1 with he3 | ⟨str', y'', rfl, hb⟩
        · rw [hops2] at he3; exact absurd he3 hnew
        · simp only at hety
          cases hety
          rw [hy2] at hb
          linarith
      · rcases List.mem_singleton.mp he2 with rfl
        simp only at hety
        cases hety
  · simp only [if_neg hd]
    refine ⟨?_, ?_, fun h1 => absurd h1 hd, ?_⟩
    · simp only [addSpace_y]
      rw [hWy]
    · simp only [addSpace_page]
      simp only [w2, hp2]
    · intro e he hnew str x y' hety
      simp only [addSpace_ops] at he
      rcases w3 e he with he3 | ⟨str', y'', rfl, hb⟩
      · rw [hops2] at he3; exact absurd he3 hnew
      · simp only at hety
        cases hety
        rw [hy2] at hb
        linarith

-- ═══ Table cell-position trace ════════════════════════════════════════════

@[simp] theorem drawCells_y (cfg : Config) (wrap : WrapFn)
    (colWidth cellPadding : ℚ) (cells : List (List ITok)) (i : ℕ)
    (s : RState) :
    (drawCells cfg wrap colWidth cellPadding cells i s).y = s.y := by
  induction cells generalizing i s with
  | nil => rfl
  | cons c rest ih => simp only [drawCells, ih, emit_y]

@[simp] theorem drawCells_page (cfg : Config) (wrap : WrapFn)
    (colWidth cellPadding : ℚ) (cells : List (List ITok)) (i : ℕ)
    (s : RState) :
    (drawCells cfg wrap colWidth cellPadding cells i s).page = s.page := by
  induction cells generalizing i s with
  | nil => rfl
  | cons c rest ih => simp only [drawCells, ih, emit_page]

/-- Every text operation `drawCells` appends is drawn at
`MARGIN + j·colWidth + cellPadding` for some column index `j`. -/
theorem drawCells_ops_form (cfg : Config) (wrap : WrapFn)
    (colWidth cellPadding : ℚ) (cells : List (List ITok)) (i : ℕ)
    (s : RState) :
    ∀ e ∈ (drawCells cfg wrap colWidth cellPadding cells i s).ops,
      e ∈ s.ops ∨ ∀ str x y, e.2 = Op.text str x y →
        ∃ j : ℕ, x = MARGIN + (j : ℚ) * colWidth + cellPadding := by
  induction cells generalizing i s with
  | nil => exact fun e he => Or.inl he
  | cons c rest ih =>
    intro e he
    simp only [drawCells] at he
    rcases ih (i + 1) _ e he with he1 | hform
    · simp only [emit_ops] at he1
      rcases List.mem_append.mp he1 with he2 | he3
      · exact Or.inl he2
      · rcases List.mem_singleton.mp he3 with rfl
        refine Or.inr fun str x y hety => ?_
        simp only at hety
        cases hety
        exact ⟨i, rfl⟩
    · exact Or.inr hform

/-- Every text operation the row loop appends is at a column-grid x. -/
theorem tableRows_ops_form (cfg : Config) (wrap : WrapFn)
    (colWidth cellPadding lineH : ℚ) (rows : List (List (List ITok)))
    (s : RState) :
    ∀ e ∈ (tableRows cfg wrap colWidth cellPadding lineH rows s).ops,
      e ∈ s.ops ∨ ∀ str x y, e.2 = Op.text str x y →
        ∃ j : ℕ, x = MARGIN + (j : ℚ) * colWidth + cellPadding := by
  induction rows generalizing s with
  | nil => exact fun e he => Or.inl he
  | cons row rest ih =>
    intro e he
    simp only [tableRows] at he
    rcases ih _ e he with he1 | hform
    · simp only [addSpace_ops] at he1
      rcases drawCells_ops_form cfg wrap colWidth cellPadding row 0 _ e he1
        with he2 | hform2
      · simp only [addSpace_ops, emit_ops, ensureSpace_ops] at he2
        rcases List.mem_append.mp he2 with he3 | he4
        · exact Or.inl he3
        · rcases List.mem_singleton.mp he4 with rfl
          exact Or.inr fun str x y hety => by cases hety
      · exact Or.inr hform2
    · exact Or.inr hform

/-- Every text operation `renderTable` appends — header cells and body
cells alike — sits at `MARGIN + j·(contentWidth/colCount) + 2` for some
column index `j`. -/
theorem renderTable_text_x (cfg : Config) (wrap : WrapFn)
    (header : List (List ITok)) (rows : List (List (List ITok)))
    (s : RState) :
    ∀ e ∈ (renderTable cfg wrap header rows s).ops, e ∈ s.ops ∨
      ∀ str x y, e.2 = Op.text str x y →
        ∃ j : ℕ, x = MARGIN +
          (j : ℚ) * (contentWidth cfg / (header.length : ℚ)) + 2 := by
  unfold renderTable
  intro e he
  simp only [addSpace_ops, emit_ops] at he
  rcases List.mem_append.mp he with he1 | he2
  · rcases tableRows_ops_form cfg wrap _ _ _ rows _ e he1 with he3 | hform
    · simp only [setFont, addSpace_ops] at he3
      rcases drawCells_ops_form cfg wrap _ _ header 0 _ e he3
        with he4 | hform2
      · simp only [setFont, setFontSize, addSpace_ops, emit_ops,
          ensureSpace_ops] at he4
        rcases List.mem_append.mp he4 with he5 | he6
        · rcases List.mem_append.mp he5 with he7 | he8
          · exact Or.inl he7
          · rcases List.mem_singleton.mp he8 with rfl
            exact Or.inr fun str x y hety => by cases hety
        · rcases List.mem_singleton.mp he6 with rfl
          exact Or.inr fun str x y hety => by cases hety
      · exact Or.inr hform2
    · exact Or.inr hform
  · rcases List.mem_singleton.mp he2 with rfl
    exact Or.inr fun str x y hety => by cases hety

-- ═══ Deeply nested list rendering ═════════════════════════════════════════

/-- A single-item unordered list nested to depth `n + 1`, each level's item
text the single character `a`. -/
def deepItems : ℕ → List Item
  | 0 => [Item.mk [ItemTok.textRaw ['a']]]
  | n + 1 => [Item.mk [ItemTok.textRaw ['a'],
      ItemTok.sublist false (deepItems n)]]

theorem flatMap_congr_fun {α β : Type} (l : List α) {f g : α → List β}
    (h : ∀ a, f a = g a) : l.flatMap f = l.flatMap g := by
  induction l with
  | nil => rfl
  | cons a rest ih => simp only [List.flatMap_cons, h a, ih]

theorem ensureSpace_eq_of_fit (cfg : Config) {n : ℚ} {s : RState}
    (h : s.y + n ≤ cfg.pageHeight - MARGIN) : ensureSpace cfg n s = s := by
  unfold ensureSpace
  rw [if_neg (not_lt.mpr h)]

/-- Evaluation of one deep-list item body under the no-wrap measurer: a
bullet at `MARGIN + 5·indent` and the item text at `MARGIN + 5·indent + 5`,
cursor advanced one body line. -/
theorem deep_body (cfg : Config) (toks : List ItemTok) (i idx : ℕ)
    {s : RState} (htext : sanitizeForPdf (itemText toks) = ['a'])
    (hfit : s.y + lineHOf fontSizeBody ≤ cfg.pageHeight - MARGIN) :
    renderItemBody cfg wrap0 false toks i idx s =
      { y := s.y + lineHOf fontSizeBody, page := s.page,
        ops := s.ops ++
          [(s.page, Op.text ['-'] (MARGIN + (i : ℚ) * 5) s.y),
           (s.page, Op.text ['a'] (MARGIN + (i : ℚ) * 5 + 5) s.y)],
        fontFamily := helvetica, fontStyle := normalStyle,
        fontSize := fontSizeBody } := by
  have hes1 : ensureSpace cfg (lineHOf fontSizeBody)
      (setFont helvetica normalStyle (setFontSize fontSizeBody s)) =
      setFont helvetica normalStyle (setFontSize fontSizeBody s) :=
    ensureSpace_eq_of_fit cfg hfit
  have step1 : renderItemBody cfg wrap0 false toks i idx s =
      itemLines cfg (lineHOf fontSizeBody) ((i : ℚ) * 5) [['a']]
        (emit (Op.text ['-'] (MARGIN + (i : ℚ) * 5) s.y)
          (setFont helvetica normalStyle (setFontSize fontSizeBody s))) := by
    unfold renderItemBody
    rw [htext]
    simp only [wrap0, hes1, setFont_y, setFontSize_y]
    norm_num
  rw [step1]
  simp only [itemLines]
  rw [ensureSpace_eq_of_fit cfg
    (show (emit (Op.text ['-'] (MARGIN + (i : ℚ) * 5) s.y)
        (setFont helvetica normalStyle (setFontSize fontSizeBody s))).y +
      lineHOf fontSizeBody ≤ cfg.pageHeight - MARGIN from by
        simpa using hfit)]
  simp only [itemLines, emit, addSpace, setFont, setFontSize]
  simp [List.append_assoc]

/-- Ops trace of rendering the depth-`n+1` nested list when everything fits
on the current page: two text operations per nesting level `j`, the bullet
at `MARGIN + (indent + j)·5` and the item text 5 mm further right, each
level one body line lower. -/
theorem deepItems_trace (cfg : Config) (n : ℕ) : ∀ (i : ℕ) (s : RState),
    s.y + ((n : ℚ) + 1) * lineHOf fontSizeBody ≤
      cfg.pageHeight - MARGIN →
    (renderList cfg wrap0 false (deepItems n) i s).ops =
      s.ops ++ (List.range (n + 1)).flatMap (fun j =>
        [(s.page, Op.text ['-'] (MARGIN + ((i : ℚ) + (j : ℚ)) * 5)
            (s.y + (j : ℚ) * lineHOf fontSizeBody)),
         (s.page, Op.text ['a'] (MARGIN + ((i : ℚ) + (j : ℚ)) * 5 + 5)
            (s.y + (j : ℚ) * lineHOf fontSizeBody))]) := by
  have hlh : (0 : ℚ) ≤ lineHOf fontSizeBody :=
    lineHOf_nonneg (by norm_num [fontSizeBody])
  induction n with
  | zero =>
    intro i s hfit
    simp only [deepItems]
    rw [renderList, renderItems, renderItems, renderItem, renderSubs,
      renderSubs]
    rw [deep_body cfg _ i 0 (by decide) (by simpa using hfit)]
    have hr1 : List.range 1 = [0] := rfl
    rw [hr1]
    simp

  | succ n ih =>
    intro i s hfit
    have hfit1 : s.y + lineHOf fontSizeBody ≤ cfg.pageHeight - MARGIN := by
      have h1 : 0 ≤ ((n : ℚ) + 1) * lineHOf fontSizeBody :=
        mul_nonneg (by positivity) hlh
      push_cast at hfit
      nlinarith
    have htext : sanitizeForPdf (itemText [ItemTok.textRaw ['a'],
        ItemTok.sublist false (deepItems n)]) = ['a'] := by
      have h2 : itemText [ItemTok.textRaw ['a'],
          ItemTok.sublist false (deepItems n)] = ['a'] := rfl
      rw [h2]; decide
    simp only [deepItems]
    rw [renderList, renderItems, renderItems, renderItem, renderSubs,
      renderSubs, renderSubs]
    rw [deep_body cfg _ i 0 htext hfit1]
    simp only [addSpace_ops]
    rw [ih (i + 1) _ (by
      show s.y + lineHOf fontSizeBody + ((n : ℚ) + 1) * lineHOf fontSizeBody ≤
        cfg.pageHeight - MARGIN
      push_cast at hfit
      nlinarith)]
    conv_rhs => rw [List.range_succ_eq_map, List.flatMap_cons,
      List.flatMap_map]
    simp only [List.append_assoc]
    refine congrArg (fun t => s.ops ++ t)
      (congrArg₂ (fun a b => a ++ b) ?_ ?_)
    · push_cast
      ring_nf
    · refine flatMap_congr_fun _ fun a => ?_
      push_cast
      ring_nf

-- ═══ Concrete-evaluation helpers ══════════════════════════════════════════

theorem map_congr_fun {α β : Type} (l : List α) {f g : α → β}
    (h : ∀ a, f a = g a) : l.map f = l.map g := by
  induction l with
  | nil => rfl
  | cons a rest ih => simp only [List.map_cons, h a, ih]

/-- Rendering `k` horizontal rules in a row: `renderHr` has no
`ensureSpace`, so the cursor never resets — the `j`-th separator line is at
`y + 4 + 8·j` regardless of the bottom margin, all on the same page. -/
theorem renderHr_replicate (cfg : Config) (wrap : WrapFn) (k : ℕ) :
    ∀ s : RState,
    (render cfg wrap (List.replicate k Tok.hr) s).ops =
      s.ops ++ (List.range k).map (fun (j : ℕ) =>
        (s.page, Op.line MARGIN (s.y + 4 + 8 * (j : ℚ))
          (MARGIN + contentWidth cfg) (s.y + 4 + 8 * (j : ℚ))))
    ∧ (render cfg wrap (List.replicate k Tok.hr) s).page = s.page := by
  induction k with
  | zero => intro s; simp [render]
  | succ k ih =>
    intro s
    rw [List.replicate_succ, render, renderToken]
    obtain ⟨ih1, ih2⟩ := ih (renderHr cfg s)
    constructor
    · rw [ih1]
      simp only [renderHr, addSpace_ops, emit_ops, addSpace_page,
        emit_page, addSpace_y, emit_y, List.append_assoc,
        List.singleton_append]
      conv_rhs => rw [List.range_succ_eq_map, List.map_cons, List.map_map]
      refine congrArg (fun t => s.ops ++ t)
        (congrArg₂ (fun a b => a :: b) ?_ ?_)
      · push_cast; ring_nf
      · refine map_congr_fun _ fun a => ?_
        simp only [Function.comp_apply]
        push_cast; ring_nf
    · rw [ih2]; rfl

/-- Full trace of `writeLinesLoop` when nothing paginates: the `k`-th line
is drawn at `(MARGIN, y + k·lineH)`. -/
theorem wll_nobreak_trace (cfg : Config) {lineH : ℚ} (h0 : 0 ≤ lineH)
    (ls : List Str) {s : RState}
    (h : s.y + (ls.length : ℚ) * lineH ≤ cfg.pageHeight - MARGIN) :
    (writeLinesLoop cfg lineH ls s).ops =
      s.ops ++ (List.range ls.length).map (fun (k : ℕ) =>
        (s.page, Op.text (ls.getD k []) MARGIN
          (s.y + (k : ℚ) * lineH))) := by
  induction ls generalizing s with
  | nil => simp [writeLinesLoop]
  | cons cl rest ih =>
    have hlen : 0 ≤ ((rest.length : ℚ)) * lineH :=
      mul_nonneg (Nat.cast_nonneg _) h0
    have hlc : (((cl :: rest).length : ℚ)) * lineH =
        (rest.length : ℚ) * lineH + lineH := by
      push_cast [List.length_cons]; ring
    rw [hlc] at h
    have hes : ensureSpace cfg lineH s = s :=
      ensureSpace_eq_of_fit cfg (by linarith)
    simp only [writeLinesLoop, hes]
    rw [ih (by simp only [addSpace_y, emit_y]; linarith)]
    simp only [addSpace_ops, emit_ops, addSpace_page, emit_page,
      addSpace_y, emit_y, List.append_assoc, List.singleton_append,
      List.length_cons]
    conv_rhs => rw [List.range_succ_eq_map, List.map_cons, List.map_map]
    refine congrArg (fun t => s.ops ++ t)
      (congrArg₂ (fun a b => a :: b) ?_ ?_)
    · simp
    · refine map_congr_fun _ fun a => ?_
      simp only [Function.comp_apply, List.getD_cons_succ]
      push_cast; ring_nf

@[simp] theorem drawCells_fontFamily (cfg : Config) (wrap : WrapFn)
    (colWidth cellPadding : ℚ) (cells : List (List ITok)) (i : ℕ)
    (s : RState) :
    (drawCells cfg wrap colWidth cellPadding cells i s).fontFamily =
      s.fontFamily := by
  induction cells generalizing i s with
  | nil => rfl
  | cons c rest ih => simp only [drawCells, ih, emit_fontFamily]

@[simp] theorem drawCells_fontStyle (cfg : Config) (wrap : WrapFn)
    (colWidth cellPadding : ℚ) (cells : List (List ITok)) (i : ℕ)
    (s : RState) :
    (drawCells cfg wrap colWidth cellPadding cells i s).fontStyle =
      s.fontStyle := by
  induction cells generalizing i s with
  | nil => rfl
  | cons c rest ih => simp only [drawCells, ih, emit_fontStyle]

@[simp] theorem drawCells_fontSize (cfg : Config) (wrap : WrapFn)
    (colWidth cellPadding : ℚ) (cells : List (List ITok)) (i : ℕ)
    (s : RState) :
    (drawCells cfg wrap colWidth cellPadding cells i s).fontSize =
      s.fontSize := by
  induction cells generalizing i s with
  | nil => rfl
  | cons c rest ih => simp only [drawCells, ih, emit_fontSize]

/-- Text trace of the cell loop: one truncated text per cell, in order. -/
theorem drawCells_texts (cfg : Config) (wrap : WrapFn)
    (colWidth cellPadding : ℚ) (cells : List (List ITok)) (i : ℕ)
    (s : RState) :
    opTexts ((drawCells cfg wrap colWidth cellPadding cells i s).ops) =
      opTexts s.ops ++ cells.map (fun cell =>
        (wrap s.fontFamily s.fontStyle s.fontSize
          (sanitizeForPdf (inlineTokensToText cell))
          (colWidth - cellPadding * 2)).headD []) := by
  induction cells generalizing i s with
  | nil => simp [drawCells]
  | cons c rest ih =>
    simp only [drawCells]
    rw [ih]
    simp only [emit_ops, emit_fontFamily, emit_fontStyle, emit_fontSize,
      opTexts_snoc_text, List.map_cons, List.append_assoc,
      List.singleton_append]

/-- Text trace of the row loop: cells of each row in order, rows in
order — regardless of whether a row's cell count matches the header. -/
theorem tableRows_texts (cfg : Config) (wrap : WrapFn)
    (colWidth cellPadding lineH : ℚ) (rows : List (List (List ITok)))
    (s : RState) :
    opTexts ((tableRows cfg wrap colWidth cellPadding lineH rows s).ops) =
      opTexts s.ops ++ rows.flatMap (fun row => row.map (fun cell =>
        (wrap s.fontFamily s.fontStyle s.fontSize
          (sanitizeForPdf (inlineTokensToText cell))
          (colWidth - cellPadding * 2)).headD [])) := by
  induction rows generalizing s with
  | nil => simp [tableRows]
  | cons row rest ih =>
    simp only [tableRows]
    rw [ih]
    simp only [addSpace_ops, addSpace_fontFamily, addSpace_fontStyle,
      addSpace_fontSize, drawCells_fontFamily, drawCells_fontStyle,
      drawCells_fontSize, emit_fontFamily, emit_fontStyle, emit_fontSize,
      ensureSpace_fontFamily, ensureSpace_fontStyle, ensureSpace_fontSize]
    rw [drawCells_texts]
    simp only [addSpace_ops, emit_ops, ensureSpace_ops, addSpace_fontFamily,
      addSpace_fontStyle, addSpace_fontSize, emit_fontFamily,
      emit_fontStyle, emit_fontSize, ensureSpace_fontFamily,
      ensureSpace_fontStyle, ensureSpace_fontSize, List.flatMap_cons,
      List.append_assoc]
    rw [opTexts_snoc_nontext _ _ _ (by intro str x y hh; cases hh)]

/-- Text trace of `renderTable`: header cells (bold small font), then body
cells row by row (normal small font), each truncated to its first wrapped
piece at `colWidth − 2·cellPadding`. -/
theorem renderTable_texts (cfg : Config) (wrap : WrapFn)
    (header : List (List ITok)) (rows : List (List (List ITok)))
    (s : RState) :
    opTexts ((renderTable cfg wrap header rows s).ops) =
      opTexts s.ops
        ++ header.map (fun cell =>
          (wrap helvetica bold fontSizeSmall
            (sanitizeForPdf (inlineTokensToText cell))
            (contentWidth cfg / (header.length : ℚ) - 2 * 2)).headD [])
        ++ rows.flatMap (fun row => row.map (fun cell =>
          (wrap helvetica normalStyle fontSizeSmall
            (sanitizeForPdf (inlineTokensToText cell))
            (contentWidth cfg / (header.length : ℚ) - 2 * 2)).headD [])) := by
  unfold renderTable
  rw [addSpace_ops, emit_ops]
  rw [opTexts_snoc_nontext _ _ _ (by intro str x y hh; cases hh)]
  rw [tableRows_texts]
  simp only [setFont_fontFamily, setFont_fontStyle, setFont_fontSize,
    setFontSize_fontSize, setFontSize_fontFamily, setFontSize_fontStyle,
    addSpace_fontFamily, addSpace_fontStyle, addSpace_fontSize,
    drawCells_fontFamily, drawCells_fontStyle, drawCells_fontSize,
    emit_fontFamily, emit_fontStyle, emit_fontSize, ensureSpace_fontFamily,
    ensureSpace_fontStyle, ensureSpace_fontSize, setFont_ops,
    setFontSize_ops, addSpace_ops]
  rw [drawCells_texts]
  simp only [setFont_fontFamily, setFont_fontStyle, setFont_fontSize,
    setFontSize_fontSize, setFontSize_fontFamily, setFontSize_fontStyle,
    addSpace_fontFamily, addSpace_fontStyle, addSpace_fontSize,
    emit_fontFamily, emit_fontStyle, emit_fontSize, ensureSpace_fontFamily,
    ensureSpace_fontStyle, ensureSpace_fontSize, setFont_ops,
    setFontSize_ops, addSpace_ops, emit_ops, ensureSpace_ops]
  rw [opTexts_snoc_nontext _ _ _ (by intro str x y hh; cases hh),
    opTexts_snoc_nontext _ _ _ (by intro str x y hh; cases hh)]

-- ═══ Claims ═══════════════════════════════════════════════════════════════

/-- C1 counterexample: the claim "every emitted drawing operation's
y-coordinate lies within [top_margin, page_height − bottom_margin]" is false
on the code.  `renderHr` never calls `ensureSpace`, so on the A4
configuration a sequence of 34 `hr` tokens draws its last separator line at
y = 283, below the bottom margin 297 − 15 = 282. -/
theorem claim1_counterexample :
    ((0 : ℕ), Op.line 15 283 195 283) ∈
      (renderDoc cfg0 wrap0 (List.replicate 34 Tok.hr)).ops
    ∧ ¬ ((283 : ℚ) ≤ cfg0.pageHeight - MARGIN) := by
  constructor
  · show ((0 : ℕ), Op.line 15 283 195 283) ∈
      (render cfg0 wrap0 (List.replicate 34 Tok.hr) initState).ops
    rw [(renderHr_replicate cfg0 wrap0 34 initState).1]
    refine List.mem_append_right _ (List.mem_map.mpr ⟨33,
      List.mem_range.mpr (by norm_num), ?_⟩)
    norm_num [initState, MARGIN, contentWidth, cfg0]
  · norm_num [cfg0, MARGIN]

/-- C1 (amended): every emitted TEXT operation's y-coordinate lies within
`[MARGIN, pageHeight − MARGIN]` on the single page it is emitted on,
provided the page is at least `2·MARGIN + 4` tall (A4 is); rectangle and
line operations are NOT so bounded — a horizontal rule after cursor
overflow and a blockquote background taller than the remaining page extend
below the bottom margin (see the counterexample). -/
theorem claim1_amended (cfg : Config)
    (hpg : 2 * MARGIN + 4 ≤ cfg.pageHeight) (wrap : WrapFn)
    (ts : List Tok) :
    ∀ e ∈ (renderDoc cfg wrap ts).ops, ∀ str x y, e.2 = Op.text str x y →
      MARGIN ≤ y ∧ y ≤ cfg.pageHeight - MARGIN :=
  (Inv_render cfg wrap ts hpg (Inv_initState cfg)).2

theorem para_h_member :
    ((0 : ℕ), Op.text ['h'] MARGIN (15 : ℚ)) ∈
      (renderDoc cfg0 wrap0 [Tok.paragraph [ITok.leaf ['h']]]).ops := by
  show ((0 : ℕ), Op.text ['h'] MARGIN (15 : ℚ)) ∈
    (render cfg0 wrap0 [Tok.paragraph [ITok.leaf ['h']]] initState).ops
  rw [render, render, renderToken]
  unfold renderParagraph
  have htext : sanitizeForPdf (inlineTokensToText [ITok.leaf ['h']]) =
      ['h'] := by
    simp only [inlineTokensToText, collectInline]
    rfl
  simp only [writeLines, wrapText, wrap0, htext, addSpace_ops]
  rw [wll_nobreak_trace cfg0
    (@lineHOf_nonneg fontSizeBody (by norm_num [fontSizeBody])) [['h']]]
  · simp [initState, MARGIN]
  · simp only [setFont_y, setFontSize_y, List.length_cons,
      List.length_nil]
    norm_num [initState, MARGIN, cfg0, lineHOf, fontSizeBody, LINE_HEIGHT]

theorem claim1_amended_witness :
    MARGIN ≤ (15 : ℚ) ∧ (15 : ℚ) ≤ cfg0.pageHeight - MARGIN :=
  claim1_amended cfg0 (by norm_num [MARGIN, cfg0]) wrap0
    [Tok.paragraph [ITok.leaf ['h']]]
    ((0 : ℕ), Op.text ['h'] MARGIN (15 : ℚ)) para_h_member ['h'] MARGIN 15
    rfl

/-- C2: `ensureSpace(height)` starts a new page (one more page, cursor reset
to the top margin, nothing else changed — in particular no drawing
operations) if and only if `cursor.y + height > pageHeight − MARGIN`, and
otherwise returns the state unchanged. -/
theorem claim2 (cfg : Config) (n : ℚ) (s : RState) :
    (s.y + n > cfg.pageHeight - MARGIN →
      ensureSpace cfg n s = { s with page := s.page + 1, y := MARGIN })
    ∧ (¬ s.y + n > cfg.pageHeight - MARGIN → ensureSpace cfg n s = s) := by
  constructor <;> intro h <;> unfold ensureSpace <;> simp [h]

theorem claim2_witness :
    ensureSpace cfg0 300 initState =
      { initState with page := initState.page + 1, y := MARGIN }
    ∧ ensureSpace cfg0 1 initState = initState :=
  ⟨(claim2 cfg0 300 initState).1 (by norm_num [initState, cfg0, MARGIN]),
   (claim2 cfg0 1 initState).2 (by norm_num [initState, cfg0, MARGIN])⟩

/-- C4: the renderer is deterministic — it is a pure function of the
configuration, the text measurer, and the token sequence (the source
consults no randomness and no clock), so any two outputs of the same render
are identical drawing-operation sequences. -/
def Renders (cfg : Config) (wrap : WrapFn) (ts : List Tok)
    (out : RState) : Prop :=
  renderDoc cfg wrap ts = out

/-- C4: two runs of the renderer on the same token sequence and
configuration produce the same finalized document (identical pages and
drawing-operation sequences). -/
theorem claim4 (cfg : Config) (wrap : WrapFn) (ts : List Tok)
    (d1 d2 : RState) (h1 : Renders cfg wrap ts d1)
    (h2 : Renders cfg wrap ts d2) : d1 = d2 := by
  rw [← h1, ← h2]

theorem claim4_witness :
    renderDoc cfg0 wrap0 [Tok.hr] = renderDoc cfg0 wrap0 [Tok.hr] :=
  claim4 cfg0 wrap0 [Tok.hr] _ _ rfl rfl

/-- C5: the glyph-safety filter is idempotent, never throws (it is a total
function), passes any code point with no replacement rule through
unchanged, and returns every ASCII-only string unchanged. -/
theorem claim5 (s : Str) :
    sanitizeForPdf (sanitizeForPdf s) = sanitizeForPdf s
    ∧ ((∀ c ∈ s, ¬ hasRule c) → sanitizeForPdf s = s)
    ∧ ((∀ c ∈ s, c.toNat < 128) → sanitizeForPdf s = s) :=
  ⟨sanitizeForPdf_idem s, sanitizeForPdf_id s, sanitizeForPdf_ascii s⟩

theorem claim5_witness :
    sanitizeForPdf (sanitizeForPdf "Step 1 → done ✓".data) =
      sanitizeForPdf "Step 1 → done ✓".data
    ∧ sanitizeForPdf "hello <= world".data = "hello <= world".data :=
  ⟨(claim5 "Step 1 → done ✓".data).1,
   (claim5 "hello <= world".data).2.2 (by decide)⟩

/-- C6: rendering an empty token sequence yields exactly one page (the
blank page created at construction) containing no drawing operations, and
in general the output page count is at least 1. -/
theorem claim6 (cfg : Config) (wrap : WrapFn) :
    pageCount (renderDoc cfg wrap []) = 1
    ∧ (renderDoc cfg wrap []).ops = []
    ∧ ∀ ts : List Tok, 1 ≤ pageCount (renderDoc cfg wrap ts) :=
  ⟨rfl, rfl, fun _ => Nat.succ_le_succ (Nat.zero_le _)⟩

/-- C7: for every Code token the rendered text operations are exactly, in
order, one per line of the (sanitized) raw text split on line breaks, each
line truncated to its first wrapped piece at width
`contentWidth − 2·padding` (never wrapped onto extra lines); the number of
drawn code lines equals the number of source lines. -/
theorem claim7 (cfg : Config) (wrap : WrapFn) (txt : Str) (s : RState) :
    opTexts ((renderCode cfg wrap txt s).ops) =
      opTexts s.ops ++ (splitLines (sanitizeForPdf txt)).map (fun cl =>
        (wrap courier normalStyle fontSizeCode
          (if cl = [] then [' '] else cl)
          (contentWidth cfg - 3 * 2)).headD [])
    ∧ (opTexts ((renderCode cfg wrap txt s).ops)).length =
        (opTexts s.ops).length + (splitLines txt).length :=
  ⟨renderCode_texts cfg wrap txt s, by
    rw [renderCode_texts cfg wrap txt s, List.length_append,
      List.length_map, splitLines_sanitize_length]⟩

/-- C3 counterexample: a malformed token — here a List token with zero
items — does NOT abort the render with an error identifying the token; the
renderer has no failure path at all.  The render completes normally,
producing a one-page document with no drawing operations and the cursor
advanced only by the list's trailing spacing. -/
theorem claim3_counterexample :
    (renderDoc cfg0 wrap0 [Tok.list false []]).ops = []
    ∧ pageCount (renderDoc cfg0 wrap0 [Tok.list false []]) = 1
    ∧ (renderDoc cfg0 wrap0 [Tok.list false []]).y = MARGIN + 3 := by
  have h : renderDoc cfg0 wrap0 [Tok.list false []] =
      addSpace 3 initState := by
    show render cfg0 wrap0 [Tok.list false []] initState = _
    rw [render, render, renderToken, renderList, renderItems]
  rw [h]
  exact ⟨rfl, rfl, rfl⟩

/-- C3 (amended): malformed tokens are silently tolerated, never signalled.
A List token with zero items renders as pure trailing spacing (cursor +3mm,
no operations, no error).  A Table row whose cell count differs from the
header's is still rendered, each cell at its index-based x position
`MARGIN + i·colWidth + cellPadding` (even beyond the table's width), and
rendering completes normally: a 2-column header with a 3-cell row draws
all five cell texts. -/
theorem claim3_amended :
    (∀ (cfg : Config) (wrap : WrapFn) (o : Bool) (ind : ℕ) (s : RState),
      renderList cfg wrap o [] ind s = addSpace 3 s)
    ∧ (∀ (cfg : Config) (wrap : WrapFn) (header : List (List ITok))
        (row : List (List ITok)) (s : RState),
        ∀ e ∈ (renderTable cfg wrap header [row] s).ops, e ∈ s.ops ∨
          ∀ str x y, e.2 = Op.text str x y → ∃ j : ℕ,
            x = MARGIN +
              (j : ℚ) * (contentWidth cfg / (header.length : ℚ)) + 2)
    ∧ opTexts ((renderTable cfg0 wrap0
        [[ITok.leaf ['A']], [ITok.leaf ['B']]]
        [[[ITok.leaf ['a']], [ITok.leaf ['b']], [ITok.leaf ['c']]]]
        initState).ops) = [['A'], ['B'], ['a'], ['b'], ['c']] := by
  refine ⟨fun cfg wrap o ind s => ?_,
    fun cfg wrap header row s => renderTable_text_x cfg wrap header [row] s,
    ?_⟩
  · rw [renderList, renderItems]
  · rw [renderTable_texts]
    have hA : sanitizeForPdf (inlineTokensToText [ITok.leaf ['A']]) =
        ['A'] := by simp only [inlineTokensToText, collectInline]; rfl
    have hB : sanitizeForPdf (inlineTokensToText [ITok.leaf ['B']]) =
        ['B'] := by simp only [inlineTokensToText, collectInline]; rfl
    have ha : sanitizeForPdf (inlineTokensToText [ITok.leaf ['a']]) =
        ['a'] := by simp only [inlineTokensToText, collectInline]; rfl
    have hb : sanitizeForPdf (inlineTokensToText [ITok.leaf ['b']]) =
        ['b'] := by simp only [inlineTokensToText, collectInline]; rfl
    have hc : sanitizeForPdf (inlineTokensToText [ITok.leaf ['c']]) =
        ['c'] := by simp only [inlineTokensToText, collectInline]; rfl
    simp [wrap0, hA, hB, ha, hb, hc, initState, opTexts]

theorem ops_prefix_drawCells (cfg : Config) (wrap : WrapFn)
    (colWidth cellPadding : ℚ) (cells : List (List ITok)) (i : ℕ)
    (s : RState) :
    s.ops <+: (drawCells cfg wrap colWidth cellPadding cells i s).ops := by
  induction cells generalizing i s with
  | nil => exact List.prefix_refl _
  | cons c rest ih =>
    simp only [drawCells]
    refine List.IsPrefix.trans ?_ (ih (i + 1) _)
    simp only [emit_ops]
    exact List.prefix_append _ _

theorem ops_prefix_tableRows (cfg : Config) (wrap : WrapFn)
    (colWidth cellPadding lineH : ℚ) (rows : List (List (List ITok)))
    (s : RState) :
    s.ops <+: (tableRows cfg wrap colWidth cellPadding lineH rows s).ops := by
  induction rows generalizing s with
  | nil => exact List.prefix_refl _
  | cons row rest ih =>
    simp only [tableRows]
    refine List.IsPrefix.trans ?_ (ih _)
    simp only [addSpace_ops]
    refine List.IsPrefix.trans ?_ (ops_prefix_drawCells cfg wrap _ _ row 0 _)
    simp only [addSpace_ops, emit_ops, ensureSpace_ops]
    exact List.prefix_append _ _

/-- The table renderer only appends drawing operations. -/
theorem ops_prefix_renderTable (cfg : Config) (wrap : WrapFn)
    (header : List (List ITok)) (rows : List (List (List ITok)))
    (s : RState) :
    s.ops <+: (renderTable cfg wrap header rows s).ops := by
  unfold renderTable
  simp only [addSpace_ops, emit_ops]
  refine List.IsPrefix.trans ?_ (List.prefix_append _ _)
  refine List.IsPrefix.trans ?_
    (ops_prefix_tableRows cfg wrap _ _ _ rows _)
  simp only [setFont_ops, setFontSize_ops, addSpace_ops]
  refine List.IsPrefix.trans ?_ (ops_prefix_drawCells cfg wrap _ _ header 0 _)
  simp only [setFont_ops, setFontSize_ops, addSpace_ops, emit_ops,
    ensureSpace_ops, List.append_assoc]
  exact List.prefix_append _ _

theorem claim3_witness :
    ((0 : ℕ), Op.line 0 0 0 0) ∈
        ({ initState with ops := [((0 : ℕ), Op.line 0 0 0 0)] } :
          RState).ops ∨
      ∀ str x y, ((0 : ℕ), Op.line 0 0 0 0).2 = Op.text str x y →
        ∃ j : ℕ, x = MARGIN + (j : ℚ) *
          (contentWidth cfg0 /
            ((([[ITok.leaf ['A']], [ITok.leaf ['B']]] :
              List (List ITok)).length : ℚ))) + 2 :=
  claim3_amended.2.1 cfg0 wrap0 [[ITok.leaf ['A']], [ITok.leaf ['B']]]
    [[ITok.leaf ['a']], [ITok.leaf ['b']], [ITok.leaf ['c']]]
    { initState with ops := [((0 : ℕ), Op.line 0 0 0 0)] }
    ((0 : ℕ), Op.line 0 0 0 0)
    ((ops_prefix_renderTable cfg0 wrap0 _ _ _).subset
      (List.mem_singleton.mpr rfl))

/-- C8: the depth-25 nested list renders to completion (the render function
is total and the trace below is a theorem about its result): two text
operations per nesting level, and each deeper level's item text starts at a
strictly greater x-offset (`MARGIN + 5·level + 5`) than its parent's. -/
theorem claim8 :
    (renderDoc cfg0 wrap0 [Tok.list false (deepItems 24)]).ops =
      (List.range 25).flatMap (fun (j : ℕ) =>
        [((0 : ℕ), Op.text ['-'] (MARGIN + ((0 : ℚ) + (j : ℚ)) * 5)
            (MARGIN + (j : ℚ) * lineHOf fontSizeBody)),
         ((0 : ℕ), Op.text ['a'] (MARGIN + ((0 : ℚ) + (j : ℚ)) * 5 + 5)
            (MARGIN + (j : ℚ) * lineHOf fontSizeBody))])
    ∧ ∀ j1 j2 : ℕ, j1 < j2 →
        MARGIN + ((0 : ℚ) + (j1 : ℚ)) * 5 + 5 <
          MARGIN + ((0 : ℚ) + (j2 : ℚ)) * 5 + 5 := by
  constructor
  · show (render cfg0 wrap0 [Tok.list false (deepItems 24)] initState).ops
      = _
    rw [render, render, renderToken]
    exact deepItems_trace cfg0 24 0 initState (by
      norm_num [initState, MARGIN, cfg0, lineHOf, fontSizeBody,
        LINE_HEIGHT])
  · intro j1 j2 h
    have hc : (j1 : ℚ) < (j2 : ℚ) := by exact_mod_cast h
    linarith

theorem claim8_witness :
    MARGIN + ((0 : ℚ) + ((0 : ℕ) : ℚ)) * 5 + 5 <
      MARGIN + ((0 : ℚ) + ((1 : ℕ) : ℚ)) * 5 + 5 :=
  claim8.2 0 1 (by norm_num)

/-- C9: a full-width separator line is drawn by `renderHeading` if and only
if the heading level is 1 (exactly one line operation then, none
otherwise); when nothing paginates the cursor advance decomposes into
level-dependent spacing before (6 for levels 1–2, 4 otherwise) and after
(4 for level 1, 2 otherwise) plus the text height, the level-1 separator
sits immediately below the written text (strictly below every text line),
and the combined before+after spacing of levels 1–2 strictly exceeds that
of levels 3–6. -/
theorem claim9 (cfg : Config) (wrap : WrapFn) (depth : ℕ)
    (toks : List ITok) (s : RState) :
    (countLineOps ((renderHeading cfg wrap depth toks s).ops) =
      countLineOps s.ops + (if depth = 1 then 1 else 0))
    ∧ (s.y + 6 + ((headingLines cfg wrap depth toks).length : ℚ) *
          lineHOf (headingFontSize depth) ≤ cfg.pageHeight - MARGIN →
        ((renderHeading cfg wrap depth toks s).y =
            s.y + (if depth ≤ 2 then (6 : ℚ) else 4)
              + ((headingLines cfg wrap depth toks).length : ℚ) *
                lineHOf (headingFontSize depth)
              + (if depth = 1 then (4 : ℚ) else 2))
        ∧ (depth = 1 →
            (s.page, Op.line MARGIN
                (s.y + 6 + ((headingLines cfg wrap depth toks).length : ℚ)
                  * lineHOf (headingFontSize depth))
                (MARGIN + contentWidth cfg)
                (s.y + 6 + ((headingLines cfg wrap depth toks).length : ℚ)
                  * lineHOf (headingFontSize depth)))
              ∈ (renderHeading cfg wrap depth toks s).ops
            ∧ ∀ e ∈ (renderHeading cfg wrap depth toks s).ops,
                e ∉ s.ops → ∀ str x y', e.2 = Op.text str x y' →
                  y' < s.y + 6 +
                    ((headingLines cfg wrap depth toks).length : ℚ) *
                      lineHOf (headingFontSize depth)))
    ∧ ∀ d1 d2 : ℕ, 1 ≤ d1 → d1 ≤ 2 → 3 ≤ d2 → d2 ≤ 6 →
        ((if d1 ≤ 2 then (6 : ℚ) else 4) + (if d1 = 1 then 4 else 2)) >
          ((if d2 ≤ 2 then (6 : ℚ) else 4) + (if d2 = 1 then 4 else 2)) := by
  refine ⟨renderHeading_lineCount cfg wrap depth toks s, fun h => ?_, ?_⟩
  · obtain ⟨h1, h2, h3, h4⟩ := renderHeading_nobreak cfg wrap depth toks h
    refine ⟨h1, fun hd => ⟨h3 hd, fun e he hnew str x y' hety => ?_⟩⟩
    have hb := h4 e he hnew str x y' hety
    have hlpos : 0 < lineHOf (headingFontSize depth) := by
      have := headingFontSize_pos depth
      unfold lineHOf LINE_HEIGHT
      positivity
    subst hd
    rw [if_pos (by norm_num : (1 : ℕ) ≤ 2)] at hb
    linarith
  · intro d1 d2 hd1 hd2 hd3 hd4
    have h1 : ¬ d2 ≤ 2 := by omega
    have h2 : ¬ d2 = 1 := by omega
    rw [if_pos hd2, if_neg h1, if_neg h2]
    by_cases hd : d1 = 1
    · rw [if_pos hd]; norm_num
    · rw [if_neg hd]; norm_num

theorem claim9_witness :
    (renderHeading cfg0 wrap0 3 [ITok.leaf ['h']] initState).y =
      initState.y + (if 3 ≤ 2 then (6 : ℚ) else 4)
        + ((headingLines cfg0 wrap0 3 [ITok.leaf ['h']]).length : ℚ) *
          lineHOf (headingFontSize 3)
        + (if 3 = 1 then (4 : ℚ) else 2) :=
  ((claim9 cfg0 wrap0 3 [ITok.leaf ['h']] initState).2.1 (by
    have hl : (headingLines cfg0 wrap0 3 [ITok.leaf ['h']]).length = 1 :=
      rfl
    rw [hl]
    norm_num [initState, MARGIN, cfg0, lineHOf, headingFontSize,
      LINE_HEIGHT])).1

/-- C10: the table renderer computes the column width as
`contentWidth / header.length` with no guard against an empty header — the
division is meaningful exactly when the header has at least one cell (then
`colCount · colWidth = contentWidth` and every emitted cell text sits at
the finite rational `MARGIN + j·colWidth + 2`), and a Table with an empty
header is not rejected by any check: `renderTable` still runs to
completion, emitting its header background, border and bottom rule. -/
theorem claim10 (cfg : Config) (wrap : WrapFn) (header : List (List ITok))
    (rows : List (List (List ITok))) (s : RState)
    (h : 0 < header.length) :
    ((header.length : ℚ) * (contentWidth cfg / (header.length : ℚ)) =
      contentWidth cfg)
    ∧ (∀ e ∈ (renderTable cfg wrap header rows s).ops, e ∈ s.ops ∨
        ∀ str x y, e.2 = Op.text str x y → ∃ j : ℕ,
          x = MARGIN + (j : ℚ) *
            (contentWidth cfg / (header.length : ℚ)) + 2)
    ∧ ∀ s' : RState, (renderTable cfg wrap [] [] s').ops.length =
        s'.ops.length + 3 := by
  refine ⟨?_, renderTable_text_x cfg wrap header rows s, fun s' => ?_⟩
  · have hne : ((header.length : ℚ)) ≠ 0 := (Nat.cast_pos.mpr h).ne'
    field_simp
  · unfold renderTable
    simp only [drawCells, tableRows, addSpace_ops, emit_ops,
      ensureSpace_ops, setFont_ops, setFontSize_ops, List.append_assoc,
      List.length_append]
    simp

theorem claim10_witness :
    ((([[ITok.leaf ['A']]] : List (List ITok)).length : ℚ)) *
        (contentWidth cfg0 /
          ((([[ITok.leaf ['A']]] : List (List ITok)).length : ℚ))) =
      contentWidth cfg0 :=
  (claim10 cfg0 wrap0 [[ITok.leaf ['A']]] [] initState
    (by norm_num)).1

end MdocExport
